import Mathlib

/-!
# Postfix `dict_mdb`: the dictionary adapter over an MDB (LMDB) table

A shallow embedding of `src/util/dict_mdb.c` and of the part of
`src/global/mkmap_mdb.c` that feeds it.

Conventions of the embedding.

* A `const char *` argument is represented by the bytes that precede its
  terminating zero byte (`Bytes`, one `Nat` per byte); `strlen` is the length
  of that list and `cmem s n` reads the first `n` bytes at the address of the
  string (content, then the terminator).
* `dict->flags` is a word of independent single-bit flags (`dict.h`); it is
  represented by one Boolean per bit this module tests (`DictFlags`).
* The storage engine is an external library.  Its handles are represented by
  values: an environment is its committed table plus the set of live
  transactions, a transaction is a private copy of the table (a snapshot for
  a reader, the working copy for the writer), a cursor is a transaction plus
  a position.  Engine failures that depend on resources (map full, I/O, key
  size limits, reader-table limits) are outside the model; the failure that
  `dict_mdb_open` itself can set up, a write transaction on a read-only
  environment, is kept.
* `msg_panic` and `msg_fatal` terminate the process: every operation returns
  `Except Exit _`.  `msg_warn` appends to the `warnings` field of the handle.
-/

namespace DictMdb

/-- A byte string; every element stands for one `unsigned char`. -/
abbrev Bytes := List Nat

/-! ## Engine status codes (`mdb.h`, `errno.h`) -/

/-- Successful result of an engine call. -/
def MDB_SUCCESS : Int := 0
/-- Status of `mdb_put` with `MDB_NOOVERWRITE` when the key is present. -/
def MDB_KEYEXIST : Int := -30799
/-- Status of `mdb_get`, `mdb_del`, `mdb_cursor_get` when nothing matches. -/
def MDB_NOTFOUND : Int := -30798
/-- Status of an attempt to write through a read-only environment or transaction. -/
def EACCES : Int := 13

/-! ## The table -/

/-- The default table of an environment: entries in cursor order. -/
abbrev Store := List (Bytes × Bytes)

/-- Default key order of the engine: bytewise comparison, a proper prefix first. -/
def keyLt : Bytes → Bytes → Bool
  | [], [] => false
  | [], _ :: _ => true
  | _ :: _, [] => false
  | x :: xs, y :: ys => if x < y then true else if y < x then false else keyLt xs ys

/-- Value stored under a key, if any. -/
def Store.get : Store → Bytes → Option Bytes
  | [], _ => none
  | (k', v') :: rest, k => if k = k' then some v' else Store.get rest k

/-- Store a value under a key: replace the entry of an equal key, otherwise
insert at the position the key order gives. -/
def Store.insert : Store → Bytes → Bytes → Store
  | [], k, v => [(k, v)]
  | (k', v') :: rest, k, v =>
    if k = k' then (k, v) :: rest
    else if keyLt k k' then (k, v) :: (k', v') :: rest
    else (k', v') :: Store.insert rest k v

/-- Remove the entry of a key. -/
def Store.erase (s : Store) (k : Bytes) : Store :=
  s.filter (fun e => decide (e.1 ≠ k))

/-- Well-formed table: keys strictly increasing in the engine's key order. -/
def Store.sorted : Store → Bool
  | [] => true
  | [_] => true
  | a :: b :: rest => keyLt a.1 b.1 && Store.sorted (b :: rest)

/-! ## Engine handles -/

/-- Transaction handle `MDB_txn`. -/
structure MDB_txn where
  /-- identity of the transaction -/
  id : Nat
  /-- begun with `MDB_RDONLY` -/
  rdonly : Bool
  /-- the table as this transaction sees it -/
  data : Store
deriving DecidableEq, Repr

/-- Environment handle `MDB_env`. -/
structure MDB_env where
  /-- opened with `MDB_RDONLY` -/
  rdonly : Bool
  /-- committed table -/
  store : Store
  /-- transactions begun and neither committed nor aborted -/
  live : List Nat
  /-- identity the next transaction gets -/
  next : Nat
deriving DecidableEq, Repr

/-- Cursor handle `MDB_cursor`. -/
structure MDB_cursor where
  /-- the transaction the cursor was opened in (`mdb_cursor_txn`) -/
  txn : MDB_txn
  /-- index of the current entry; `none` while not positioned -/
  pos : Option Nat
deriving DecidableEq, Repr

/-- Cursor operations used by the adapter. -/
inductive MDB_cursor_op where
  | MDB_FIRST
  | MDB_NEXT
deriving DecidableEq, Repr

/-- Engine call `mdb_txn_begin(env, NULL, flags, &txn)`. -/
def mdb_txn_begin (env : MDB_env) (rdonly : Bool) : Except Int (MDB_env × MDB_txn) :=
  if rdonly = false ∧ env.rdonly = true then .error EACCES
  else .ok ({ env with live := env.next :: env.live, next := env.next + 1 },
            { id := env.next, rdonly := rdonly, data := env.store })

/-- Engine call `mdb_txn_commit(txn)`. -/
def mdb_txn_commit (env : MDB_env) (txn : MDB_txn) : Int × MDB_env :=
  (MDB_SUCCESS,
   { env with store := if txn.rdonly then env.store else txn.data,
              live := env.live.erase txn.id })

/-- Engine call `mdb_txn_abort(txn)`. -/
def mdb_txn_abort (env : MDB_env) (txn : MDB_txn) : MDB_env :=
  { env with live := env.live.erase txn.id }

/-- Engine call `mdb_get(txn, dbi, &key, &data)`. -/
def mdb_get (txn : MDB_txn) (key : Bytes) : Int × Bytes :=
  match txn.data.get key with
  | some v => (MDB_SUCCESS, v)
  | none => (MDB_NOTFOUND, [])

/-- Engine call `mdb_put(txn, dbi, &key, &data, flags)`; `nooverwrite` is `MDB_NOOVERWRITE`. -/
def mdb_put (txn : MDB_txn) (key data : Bytes) (nooverwrite : Bool) : Int × MDB_txn :=
  if txn.rdonly then (EACCES, txn)
  else if nooverwrite = true ∧ (txn.data.get key).isSome then (MDB_KEYEXIST, txn)
  else (MDB_SUCCESS, { txn with data := txn.data.insert key data })

/-- Engine call `mdb_del(txn, dbi, &key, NULL)`. -/
def mdb_del (txn : MDB_txn) (key : Bytes) : Int × MDB_txn :=
  if txn.rdonly then (EACCES, txn)
  else if (txn.data.get key).isSome then (MDB_SUCCESS, { txn with data := txn.data.erase key })
  else (MDB_NOTFOUND, txn)

/-- Engine call `mdb_drop(txn, dbi, 0)`: empty the table. -/
def mdb_drop (txn : MDB_txn) : Int × MDB_txn :=
  if txn.rdonly then (EACCES, txn) else (MDB_SUCCESS, { txn with data := [] })

/-- Engine call `mdb_cursor_open(txn, dbi, &cursor)`. -/
def mdb_cursor_open (txn : MDB_txn) : Int × MDB_cursor :=
  (MDB_SUCCESS, { txn := txn, pos := none })

/-- Engine call `mdb_cursor_get(cursor, &key, &data, op)`; `MDB_NEXT` on a cursor
that is not positioned acts as `MDB_FIRST`. -/
def mdb_cursor_get (c : MDB_cursor) (op : MDB_cursor_op) : Int × Bytes × Bytes × MDB_cursor :=
  let i : Nat :=
    match op, c.pos with
    | .MDB_FIRST, _ => 0
    | .MDB_NEXT, none => 0
    | .MDB_NEXT, some p => p + 1
  match c.txn.data[i]? with
  | some (k, v) => (MDB_SUCCESS, k, v, { c with pos := some i })
  | none => (MDB_NOTFOUND, [], [], c)

/-! ## Helpers of the utility library -/

/-- Modelled from the spec: `lowercase()` of the utility library (stringops),
which is not part of these sources; keys are case-normalized by mapping the
ASCII upper-case letters to lower case, in place. -/
def lowercase (s : Bytes) : Bytes :=
  s.map (fun c => if 65 ≤ c ∧ c ≤ 90 then c + 32 else c)

/-- The first `n` bytes found at the address of a C string: its content,
followed by the terminating zero byte. -/
def cmem (s : Bytes) (n : Nat) : Bytes := (s ++ [0]).take n

/-- Modelled from the spec: the macro `SCOPY(buf, data, size)` copies through
`vstring_strncpy`, which is not part of these sources: at most `size` bytes,
stopping at the first zero byte, giving a null-terminated copy. The argument
is the `size` bytes at `data`. -/
def SCOPY (data : Bytes) : Bytes := data.takeWhile (fun c => decide (c ≠ 0))

/-! ## The dictionary handle -/

/-- The bits of `dict->flags` that this module reads or writes. -/
structure DictFlags where
  dup_warn : Bool
  dup_ignore : Bool
  try0null : Bool
  try1null : Bool
  fixed : Bool
  lock : Bool
  dup_replace : Bool
  fold_fix : Bool
deriving DecidableEq, Repr

/-- The handle `DICT_MDB` with the generic members of `DICT` that the module uses. -/
structure DICT_MDB where
  /-- generic member `dict.flags` -/
  flags : DictFlags
  /-- generic member `dict.error` -/
  error : Int
  /-- generic member `dict.fold_buf` -/
  fold_buf : Option Bytes
  /-- MDB environment -/
  env : MDB_env
  /-- write transaction for O_TRUNC -/
  txn : Option MDB_txn
  /-- for sequence ops -/
  cursor : Option MDB_cursor
  /-- key buffer -/
  key_buf : Option Bytes
  /-- result buffer -/
  val_buf : Option Bytes
  /-- keys reported through `msg_warn`, oldest first -/
  warnings : List Bytes
deriving DecidableEq, Repr

/-- Ways in which an operation terminates the process. -/
inductive Exit where
  /-- `msg_panic`: no DICT_FLAG_TRY1NULL | DICT_FLAG_TRY0NULL flag -/
  | panic_no_flag
  /-- `msg_panic`: invalid function -/
  | panic_invalid_function
  /-- `msg_fatal`: txn_begin failed -/
  | fatal_txn_begin (status : Int)
  /-- `msg_fatal`: duplicate entry -/
  | fatal_duplicate (name : Bytes)
  /-- `msg_fatal`: error writing MDB database -/
  | fatal_write (status : Int)
  /-- `msg_fatal`: error committing MDB database -/
  | fatal_commit (status : Int)
  /-- `msg_fatal`: error deleting -/
  | fatal_delete (status : Int)
  /-- `msg_fatal`: cursor_open failed -/
  | fatal_cursor_open (status : Int)
  /-- `msg_fatal`: seeking dictionary -/
  | fatal_seek (status : Int)
  /-- `msg_fatal`: closing dictionary -/
  | fatal_close (status : Int)
  /-- `msg_fatal`: truncate failed -/
  | fatal_truncate (status : Int)
deriving DecidableEq, Repr

/-- Traversal request `DICT_SEQ_FUN_FIRST` (`dict.h`). -/
def DICT_SEQ_FUN_FIRST : Int := 0
/-- Traversal request `DICT_SEQ_FUN_NEXT` (`dict.h`). -/
def DICT_SEQ_FUN_NEXT : Int := 1

/-! ## The operations of `dict_mdb.c` -/

/-- The function `dict_mdb_lookup`: find database entry. -/
def dict_mdb_lookup (dict : DICT_MDB) (name : Bytes) : Except Exit (Option Bytes × DICT_MDB) :=
  let dict := { dict with error := 0 }
  let klen := name.length
  -- Sanity check.
  if dict.flags.try1null = false ∧ dict.flags.try0null = false then .error .panic_no_flag
  else
    -- Optionally fold the key.
    let folded := dict.flags.fold_fix
    let dict := if folded then { dict with fold_buf := some (lowercase name) } else dict
    let name := if folded then lowercase name else name
    -- Start a read transaction if there's no global txn.
    match (match dict.txn with
           | some t => Except.ok (dict.env, t)
           | none => mdb_txn_begin dict.env true) with
    | .error status => .error (.fatal_txn_begin status)
    | .ok (env, txn) =>
      let dict := { dict with env := env }
      -- See if this MDB file was written with one null byte appended.
      let get1 := mdb_get txn (cmem name (klen + 1))
      let found1 := dict.flags.try1null = true ∧ get1.1 = 0
      let dict :=
        if found1 then
          { dict with flags := { dict.flags with try0null := false },
                      val_buf := some (SCOPY get1.2) }
        else dict
      let result : Option Bytes := if found1 then some (SCOPY get1.2) else none
      -- See if this MDB file was written with no null byte appended.
      let get0 := mdb_get txn (cmem name klen)
      let found0 := result = none ∧ dict.flags.try0null = true ∧ get0.1 = 0
      let dict :=
        if found0 then
          { dict with flags := { dict.flags with try1null := false },
                      val_buf := some (SCOPY get0.2) }
        else dict
      let result : Option Bytes := if found0 then some (SCOPY get0.2) else result
      -- Close the read txn if it's not the global txn.
      let dict := if dict.txn.isNone then { dict with env := mdb_txn_abort dict.env txn } else dict
      .ok (result, dict)

/-- The function `dict_mdb_update`: add or update database entry. The
parameter `no_trailing_null` says whether the build defines
`MDB_NO_TRAILING_NULL`. -/
def dict_mdb_update (no_trailing_null : Bool) (dict : DICT_MDB) (name value : Bytes) :
    Except Exit (Int × DICT_MDB) :=
  let dict := { dict with error := 0 }
  -- Sanity check.
  if dict.flags.try1null = false ∧ dict.flags.try0null = false then .error .panic_no_flag
  else
    -- Optionally fold the key.
    let folded := dict.flags.fold_fix
    let dict := if folded then { dict with fold_buf := some (lowercase name) } else dict
    let name := if folded then lowercase name else name
    let key_size := name.length
    let value_size := value.length
    -- If undecided about appending a null byte, choose a default.
    let dict :=
      if dict.flags.try1null = true ∧ dict.flags.try0null = true then
        if no_trailing_null then { dict with flags := { dict.flags with try1null := false } }
        else { dict with flags := { dict.flags with try0null := false } }
      else dict
    -- Optionally append a null byte to key and value.
    let key_size := if dict.flags.try1null then key_size + 1 else key_size
    let value_size := if dict.flags.try1null then value_size + 1 else value_size
    -- Start a write transaction if there's no global txn.
    match (match dict.txn with
           | some t => Except.ok (dict.env, t)
           | none => mdb_txn_begin dict.env false) with
    | .error status => .error (.fatal_txn_begin status)
    | .ok (env, txn) =>
      let dict := { dict with env := env }
      -- Do the update.
      let put := mdb_put txn (cmem name key_size) (cmem value value_size)
                   (!dict.flags.dup_replace)
      let status := put.1
      let txn := put.2
      let checked : Except Exit DICT_MDB :=
        if status ≠ 0 then
          if status = MDB_KEYEXIST then
            if dict.flags.dup_ignore then .ok dict
            else if dict.flags.dup_warn then
              .ok { dict with warnings := dict.warnings ++ [name] }
            else .error (.fatal_duplicate name)
          else .error (.fatal_write status)
        else .ok dict
      match checked with
      | .error e => .error e
      | .ok dict =>
        -- Commit the transaction if it's not the global txn.
        match dict.txn with
        | some _ => .ok (status, { dict with txn := some txn })
        | none =>
          let commit := mdb_txn_commit dict.env txn
          if commit.1 ≠ 0 then .error (.fatal_commit commit.1)
          else .ok (commit.1, { dict with env := commit.2 })

/-- The function `dict_mdb_delete`: delete one entry from the dictionary. -/
def dict_mdb_delete (dict : DICT_MDB) (name : Bytes) : Except Exit (Int × DICT_MDB) :=
  let dict := { dict with error := 0 }
  let status : Int := 1
  let klen := name.length
  -- Sanity check.
  if dict.flags.try1null = false ∧ dict.flags.try0null = false then .error .panic_no_flag
  else
    -- Optionally fold the key.
    let folded := dict.flags.fold_fix
    let dict := if folded then { dict with fold_buf := some (lowercase name) } else dict
    let name := if folded then lowercase name else name
    -- Start a write transaction if there's no global txn; the status of
    -- mdb_txn_begin is assigned to `status`.
    match (match dict.txn with
           | some t => Except.ok (status, dict.env, t)
           | none =>
             match mdb_txn_begin dict.env false with
             | .error s => .error s
             | .ok (env, t) => .ok (0, env, t)) with
    | .error s => .error (.fatal_txn_begin s)
    | .ok (status, env, txn) =>
      let dict := { dict with env := env }
      -- See if this MDB file was written with one null byte appended.
      let try1 := dict.flags.try1null
      let del1 := mdb_del txn (cmem name (klen + 1))
      if try1 = true ∧ del1.1 ≠ 0 ∧ del1.1 ≠ MDB_NOTFOUND then .error (.fatal_delete del1.1)
      else
        let status : Int := if try1 then (if del1.1 ≠ 0 then 1 else del1.1) else status
        let txn := if try1 then del1.2 else txn
        let dict :=
          if try1 = true ∧ del1.1 = 0 then
            { dict with flags := { dict.flags with try0null := false } }
          else dict
        -- See if this MDB file was written with no null byte appended.
        let try0 := decide (status > 0) && dict.flags.try0null
        let del0 := mdb_del txn (cmem name klen)
        if try0 = true ∧ del0.1 ≠ 0 ∧ del0.1 ≠ MDB_NOTFOUND then .error (.fatal_delete del0.1)
        else
          let status : Int := if try0 then (if del0.1 ≠ 0 then 1 else del0.1) else status
          let txn := if try0 then del0.2 else txn
          let dict :=
            if try0 = true ∧ del0.1 = 0 then
              { dict with flags := { dict.flags with try1null := false } }
            else dict
          -- Commit the transaction if it's not the global txn.
          match dict.txn with
          | some _ => .ok (status, { dict with txn := some txn })
          | none =>
            let commit := mdb_txn_commit dict.env txn
            if commit.1 ≠ 0 then .error (.fatal_commit commit.1)
            else .ok (status, { dict with env := commit.2 })

/-- The function `dict_mdb_sequence`: traverse the dictionary. `key` and
`value` are the contents of the caller's output variables before the call;
the result carries their contents after it. -/
def dict_mdb_sequence (dict : DICT_MDB) (function : Int) (key value : Option Bytes) :
    Except Exit (Int × Option Bytes × Option Bytes × DICT_MDB) :=
  let dict := { dict with error := 0 }
  -- Determine the seek function.
  match (if function = DICT_SEQ_FUN_FIRST then some MDB_cursor_op.MDB_FIRST
         else if function = DICT_SEQ_FUN_NEXT then some MDB_cursor_op.MDB_NEXT
         else none) with
  | none => .error .panic_invalid_function
  | some op =>
    -- Open a read transaction and cursor if needed.
    match (match dict.cursor with
           | some c => Except.ok (dict.env, c)
           | none =>
             match mdb_txn_begin dict.env true with
             | .error s => .error (Exit.fatal_txn_begin s)
             | .ok (env, txn) =>
               let opened := mdb_cursor_open txn
               if opened.1 ≠ 0 then .error (Exit.fatal_cursor_open opened.1)
               else .ok (env, opened.2)) with
    | .error e => .error e
    | .ok (env, cursor) =>
      let dict := { dict with env := env, cursor := some cursor }
      -- Database lookup.
      let got := mdb_cursor_get cursor op
      let status := got.1
      let mdb_key := got.2.1
      let mdb_value := got.2.2.1
      let dict := { dict with cursor := some got.2.2.2 }
      if status ≠ 0 ∧ status ≠ MDB_NOTFOUND then .error (.fatal_seek status)
      else if status = MDB_NOTFOUND then
        -- Caller must read to end, to ensure cursor gets closed.
        let txn := got.2.2.2.txn
        .ok (1, key, value, { dict with env := mdb_txn_abort dict.env txn, cursor := none })
      else
        -- Copy the key so that it is guaranteed null terminated.
        let key := some (SCOPY mdb_key)
        let dict := { dict with key_buf := some (SCOPY mdb_key) }
        if mdb_value.length > 0 then
          -- Copy the value so that it is guaranteed null terminated.
          .ok (0, key, some (SCOPY mdb_value), { dict with val_buf := some (SCOPY mdb_value) })
        else .ok (status, key, value, dict)

/-- The function `dict_mdb_close`: disassociate from data base. The result is
the environment as the handle leaves it: the committed table and the
transactions that are still live. -/
def dict_mdb_close (dict : DICT_MDB) : Except Exit MDB_env :=
  match (match dict.txn with
         | some t =>
           let commit := mdb_txn_commit dict.env t
           if commit.1 ≠ 0 then Except.error (Exit.fatal_close commit.1)
           else Except.ok { dict with env := commit.2, cursor := none }
         | none => Except.ok dict) with
  | .error e => .error e
  | .ok dict =>
    let dict :=
      match dict.cursor with
      | some c => { dict with env := mdb_txn_abort dict.env c.txn }
      | none => dict
    .ok dict.env

/-- Open mode `O_RDONLY` (`fcntl.h`). -/
def O_RDONLY : Nat := 0
/-- Open flag `O_TRUNC` (`fcntl.h`, the value used on Linux). -/
def O_TRUNC : Nat := 512

/-- The function `dict_mdb_open`: open MDB data base. `file` is the committed
table found in the database file. The staleness warning, which depends on file
times only, is not represented. -/
def dict_mdb_open (file : Store) (open_flags : Nat) (dict_flags : DictFlags) :
    Except Exit DICT_MDB :=
  let env_rdonly : Bool := decide (open_flags = O_RDONLY)
  let env : MDB_env := { rdonly := env_rdonly, store := file, live := [], next := 0 }
  match mdb_txn_begin env env_rdonly with
  | .error s => .error (.fatal_txn_begin s)
  | .ok (env, txn) =>
    -- If O_TRUNC was specified, drop now and keep this write txn.
    match (if open_flags &&& O_TRUNC ≠ 0 then
             let dropped := mdb_drop txn
             if dropped.1 ≠ 0 then .error (Exit.fatal_truncate dropped.1)
             else Except.ok (env, some dropped.2)
           else .ok (mdb_txn_abort env txn, none)) with
    | .error e => .error e
    | .ok (env, txn) =>
      let flags : DictFlags := { dict_flags with fixed := true }
      let flags : DictFlags :=
        if dict_flags.try0null = false ∧ dict_flags.try1null = false then
          { flags with try0null := true, try1null := true }
        else flags
      .ok { flags := flags, error := 0,
            fold_buf := if dict_flags.fold_fix then some [] else none,
            env := env, txn := txn, cursor := none,
            key_buf := none, val_buf := none, warnings := [] }

/-! ## The traversal protocol of the callers -/

/-- One full traversal as callers drive it: the first call passes `function`,
every further call passes `DICT_SEQ_FUN_NEXT`, and the loop ends at the first
call that does not return 0. The result lists the contents of the two output
variables after every call that returned 0, and carries the status of the
last call. `none` means that `fuel` calls did not reach the end. -/
def sequence_all : Nat → DICT_MDB → Int → Option Bytes → Option Bytes →
    Option (Except Exit (List (Option Bytes × Option Bytes) × Int × DICT_MDB))
  | 0, _, _, _, _ => none
  | fuel + 1, dict, function, key, value =>
    match dict_mdb_sequence dict function key value with
    | .error e => some (.error e)
    | .ok (status, key, value, dict) =>
      if status = 0 then
        match sequence_all fuel dict DICT_SEQ_FUN_NEXT key value with
        | some (.ok (rest, last, dict)) => some (.ok ((key, value) :: rest, last, dict))
        | other => other
      else some (.ok ([], status, dict))

/-- The table an operation of the handle works on: the ambient write
transaction's copy if there is one, else the committed table. -/
def view (dict : DICT_MDB) : Store :=
  match dict.txn with
  | some t => t.data
  | none => dict.env.store

/-! ## Concrete handles used in the examples -/

/-- Flag word with every bit clear. -/
def noFlags : DictFlags :=
  { dup_warn := false, dup_ignore := false, try0null := false, try1null := false,
    fixed := false, lock := false, dup_replace := false, fold_fix := false }

/-- A handle without ambient transaction and without cursor over a committed table. -/
def idleHandle (flags : DictFlags) (store : Store) : DICT_MDB :=
  { flags := flags, error := 0, fold_buf := none,
    env := { rdonly := false, store := store, live := [], next := 0 },
    txn := none, cursor := none, key_buf := none, val_buf := none, warnings := [] }

/-- The handle can write: its ambient transaction is a write transaction, or,
without one, its environment is not read-only. -/
def writable (dict : DICT_MDB) : Prop :=
  match dict.txn with
  | some t => t.rdonly = false
  | none => dict.env.rdonly = false

/-- The name as the operations use it: folded when `DICT_FLAG_FOLD_FIX` is set. -/
def folded (flags : DictFlags) (name : Bytes) : Bytes :=
  if flags.fold_fix then lowercase name else name

/-- The encoding flags as `dict_mdb_update` leaves them: when both are set, the
build's default clears one. -/
def narrow (no_trailing_null : Bool) (f : DictFlags) : DictFlags :=
  if f.try1null = true ∧ f.try0null = true then
    (if no_trailing_null then { f with try1null := false } else { f with try0null := false })
  else f

/-- The key bytes that `dict_mdb_update` hands to the engine: the folded name,
with the terminator when the encoding the call settles on is the
terminator-appended one. -/
def update_key (no_trailing_null : Bool) (flags : DictFlags) (name : Bytes) : Bytes :=
  if (narrow no_trailing_null flags).try1null then folded flags name ++ [0]
  else folded flags name

/-- The value bytes that `dict_mdb_update` hands to the engine. -/
def update_value (no_trailing_null : Bool) (flags : DictFlags) (value : Bytes) : Bytes :=
  if (narrow no_trailing_null flags).try1null then value ++ [0] else value

/-- Relation between a stored entry and the contents of the output variables
after the traversal step that delivers it. -/
def delivered (e : Bytes × Bytes) (r : Option Bytes × Option Bytes) : Prop :=
  r.1 = some (SCOPY e.1) ∧ (e.2 ≠ [] → r.2 = some (SCOPY e.2))

/-- Open mode `O_RDWR` (`fcntl.h`). -/
def O_RDWR : Nat := 2

/-- One call on a handle, with its arguments. -/
inductive Op where
  | lookup (name : Bytes)
  | update (name value : Bytes)
  | delete (name : Bytes)
  | sequence (function : Int) (key value : Option Bytes)
deriving DecidableEq, Repr

/-- The handle after one call, or the way the call terminated the process. -/
def apply_op (no_trailing_null : Bool) (dict : DICT_MDB) : Op → Except Exit DICT_MDB
  | .lookup name => (dict_mdb_lookup dict name).map Prod.snd
  | .update name value => (dict_mdb_update no_trailing_null dict name value).map Prod.snd
  | .delete name => (dict_mdb_delete dict name).map Prod.snd
  | .sequence function key value =>
    (dict_mdb_sequence dict function key value).map (fun r => r.2.2.2)

/-- The handle after a series of calls, made one after the other. -/
def run_ops (no_trailing_null : Bool) : DICT_MDB → List Op → Except Exit DICT_MDB
  | dict, [] => .ok dict
  | dict, op :: ops =>
    match apply_op no_trailing_null dict op with
    | .ok d1 => run_ops no_trailing_null d1 ops
    | .error e => .error e

/-- The physical entry `dict_mdb_update` writes for a pair (name, value). -/
def encoded (no_trailing_null : Bool) (flags : DictFlags) (p : Bytes × Bytes) : Bytes × Bytes :=
  (update_key no_trailing_null flags p.1, update_value no_trailing_null flags p.2)

/-- The calls of a load: one update per pair, in order. -/
def load_ops (pairs : List (Bytes × Bytes)) : List Op :=
  pairs.map (fun p => Op.update p.1 p.2)

/-- The table after storing a list of entries one after the other. -/
def Store.insertAll (s : Store) (es : List (Bytes × Bytes)) : Store :=
  es.foldl (fun acc e => acc.insert e.1 e.2) s





/-- The C type `int`: the value a 32-bit two's-complement machine gives for a
result of signed arithmetic. -/
def wrap_int (x : Int) : Int := (x + 2147483648) % 4294967296 - 2147483648

/-- Conversion of an `int` to `unsigned int`. -/
def to_unsigned (x : Int) : Nat := (x % 4294967296).toNat

/-- The tuning variables of `dict_mdb.c` that `mkmap_mdb_open` pokes. -/
structure Tunables where
  /-- global `size_t dict_mdb_map_size` -/
  dict_mdb_map_size : Nat
  /-- global `unsigned int dict_mdb_max_readers` -/
  dict_mdb_max_readers : Nat
deriving DecidableEq, Repr

/-- The compiled-in values: 10MB default mmap size, 216 readers. -/
def default_tunables : Tunables :=
  { dict_mdb_map_size := 10 * 1024 * 1024, dict_mdb_max_readers := 216 }

/-- The function `mkmap_mdb_open`, as far as it sets the tuning variables.
`var_proc_limit` is the `int` the configuration table delivers (minimum 1, no
maximum), `var_mdb_map_size` the configured map size. -/
def mkmap_mdb_open (var_proc_limit : Int) (var_mdb_map_size : Nat) : Tunables :=
  { dict_mdb_map_size := var_mdb_map_size,
    dict_mdb_max_readers := to_unsigned (wrap_int (wrap_int (var_proc_limit * 2) + 16)) }

/-- The capacity parameters `dict_mdb_open` hands to the engine before it opens
the environment: the arguments of `mdb_env_set_mapsize` and of
`mdb_env_set_maxreaders`. -/
def dict_mdb_open_capacity (g : Tunables) : Nat × Nat :=
  (g.dict_mdb_map_size, g.dict_mdb_max_readers)







/-- The call is a traversal step. -/
def Op.is_sequence : Op → Bool
  | .sequence _ _ _ => true
  | _ => false









/-! ## Facts about the table and the string helpers -/

theorem Store.get_insert_self (s : Store) (k v : Bytes) : (s.insert k v).get k = some v := by
  induction s with
  | nil => simp [Store.insert, Store.get]
  | cons e rest ih =>
    obtain ⟨k', v'⟩ := e
    by_cases h : k = k'
    · simp [Store.insert, Store.get, h]
    · by_cases h2 : keyLt k k' = true
      · simp [Store.insert, Store.get, h, h2]
      · simp [Store.insert, Store.get, h, h2, ih]

theorem Store.get_insert_of_ne (s : Store) (k k' v : Bytes) (hne : k' ≠ k) :
    (s.insert k v).get k' = s.get k' := by
  induction s with
  | nil => simp [Store.insert, Store.get, hne]
  | cons e rest ih =>
    obtain ⟨k1, v1⟩ := e
    by_cases h : k = k1
    · subst h
      simp [Store.insert, Store.get, hne]
    · by_cases h2 : keyLt k k1 = true
      · simp [Store.insert, Store.get, h, h2, hne]
      · simp [Store.insert, Store.get, h, h2, ih]

theorem Store.get_erase_self (s : Store) (k : Bytes) : (s.erase k).get k = none := by
  induction s with
  | nil => simp [Store.erase, Store.get]
  | cons e rest ih =>
    obtain ⟨k1, v1⟩ := e
    by_cases h : k1 = k
    · simpa [Store.erase, List.filter_cons, h] using ih
    · have h' : ¬ k = k1 := fun e => h e.symm
      simpa [Store.erase, List.filter_cons, h, Store.get, h'] using ih

theorem Store.get_erase_of_ne (s : Store) (k k' : Bytes) (hne : k' ≠ k) :
    (s.erase k).get k' = s.get k' := by
  induction s with
  | nil => simp [Store.erase, Store.get]
  | cons e rest ih =>
    obtain ⟨k1, v1⟩ := e
    by_cases h : k1 = k
    · subst h
      simpa [Store.erase, List.filter_cons, Store.get, hne] using ih
    · by_cases h3 : k' = k1
      · simp [Store.erase, List.filter_cons, h, Store.get, h3]
      · simpa [Store.erase, List.filter_cons, h, Store.get, h3] using ih

theorem cmem_succ (s : Bytes) : cmem s (s.length + 1) = s ++ [0] := by
  simp [cmem, List.take_of_length_le]

theorem cmem_length (s : Bytes) : cmem s s.length = s := by
  simp [cmem]

theorem lowercase_length (s : Bytes) : (lowercase s).length = s.length := by
  simp [lowercase]

theorem lowercase_zero_not_mem (s : Bytes) (h : 0 ∉ s) : 0 ∉ lowercase s := by
  intro hm
  simp only [lowercase, List.mem_map] at hm
  obtain ⟨c, hc, he⟩ := hm
  by_cases hr : 65 ≤ c ∧ c ≤ 90
  · rw [if_pos hr] at he
    omega
  · rw [if_neg hr] at he
    exact h (he ▸ hc)

theorem SCOPY_of_not_mem (v : Bytes) (h : 0 ∉ v) : SCOPY v = v := by
  unfold SCOPY
  rw [List.takeWhile_eq_self_iff]
  intro c hc
  have : c ≠ 0 := fun e => h (e ▸ hc)
  simpa using this

theorem SCOPY_append_zero (v : Bytes) (h : 0 ∉ v) : SCOPY (v ++ [0]) = v := by
  induction v with
  | nil => simp [SCOPY]
  | cons c rest ih =>
    have hc : c ≠ 0 := fun e => h (by simp [e])
    have hr : 0 ∉ rest := fun m => h (List.mem_cons_of_mem _ m)
    have := ih hr
    simp only [SCOPY] at this ⊢
    simpa [List.takeWhile_cons, hc] using this

theorem cmem_lowercase_succ (s : Bytes) :
    cmem (lowercase s) (s.length + 1) = lowercase s ++ [0] := by
  rw [← lowercase_length s, cmem_succ]

theorem cmem_lowercase_length (s : Bytes) : cmem (lowercase s) s.length = lowercase s := by
  rw [← lowercase_length s, cmem_length]

/-! ## What the operations do, case by case -/

/-- An update that stores: the key is new in the selected encoding, or the
policy is replace. -/
theorem update_stored (ntn : Bool) (dict : DICT_MDB) (name value : Bytes)
    (hflag : dict.flags.try1null = true ∨ dict.flags.try0null = true)
    (hw : writable dict)
    (hst : dict.flags.dup_replace = true ∨
      (view dict).get (update_key ntn dict.flags name) = none) :
    ∃ d1, dict_mdb_update ntn dict name value = .ok (0, d1) ∧
      d1.flags = narrow ntn dict.flags ∧
      view d1 = (view dict).insert (update_key ntn dict.flags name)
        (update_value ntn dict.flags value) ∧
      d1.txn = dict.txn.map (fun t => MDB_txn.mk t.id t.rdonly ((view dict).insert
        (update_key ntn dict.flags name) (update_value ntn dict.flags value))) ∧
      (dict.txn.isSome = true → d1.env = dict.env) ∧
      d1.env.rdonly = dict.env.rdonly ∧ d1.env.live = dict.env.live ∧
      d1.cursor = dict.cursor ∧ d1.warnings = dict.warnings := by
  obtain ⟨flags, err, fb, env, txn, cur, kb, vb, w⟩ := dict
  obtain ⟨dw, di, t0, t1, fx, lk, dr, ff⟩ := flags
  obtain ⟨ro, st, lv, nx⟩ := env
  rcases hst with hst | hst <;>
  rcases txn with _ | ⟨ti, tro, td⟩ <;>
  cases t1 <;> cases t0 <;> cases ff <;> cases ntn <;>
    simp [writable, view, update_key, update_value, narrow, folded] at hflag hw hst <;>
    simp [dict_mdb_update, mdb_txn_begin, mdb_put, mdb_txn_commit, view, update_key,
      update_value, cmem_succ, cmem_length, MDB_SUCCESS, narrow, folded, hw, hst]

/-- A lookup that matches the terminator-appended form. -/
theorem lookup_found1 (dict : DICT_MDB) (name v : Bytes)
    (h1 : dict.flags.try1null = true)
    (hget : (view dict).get (folded dict.flags name ++ [0]) = some v) :
    ∃ d2, dict_mdb_lookup dict name = .ok (some (SCOPY v), d2) ∧
      d2.flags = { dict.flags with try0null := false } ∧
      view d2 = view dict ∧ d2.txn = dict.txn ∧ d2.cursor = dict.cursor ∧
      d2.env.store = dict.env.store ∧ d2.env.live = dict.env.live ∧
      d2.env.rdonly = dict.env.rdonly ∧ d2.warnings = dict.warnings := by
  obtain ⟨flags, err, fb, env, txn, cur, kb, vb, w⟩ := dict
  obtain ⟨dw, di, t0, t1, fx, lk, dr, ff⟩ := flags
  obtain ⟨ro, st, lv, nx⟩ := env
  rcases txn with _ | ⟨ti, tro, td⟩ <;>
  cases t0 <;> cases ff <;>
    simp [view, folded] at h1 hget <;>
    simp [dict_mdb_lookup, mdb_txn_begin, mdb_get, mdb_txn_abort, view, cmem_succ,
      cmem_length, cmem_lowercase_succ, cmem_lowercase_length, MDB_SUCCESS, h1, hget]

/-- A lookup that matches the bare form only. -/
theorem lookup_found0 (dict : DICT_MDB) (name v : Bytes)
    (h0 : dict.flags.try0null = true)
    (hmiss : dict.flags.try1null = false ∨
      (view dict).get (folded dict.flags name ++ [0]) = none)
    (hget : (view dict).get (folded dict.flags name) = some v) :
    ∃ d2, dict_mdb_lookup dict name = .ok (some (SCOPY v), d2) ∧
      d2.flags = { dict.flags with try1null := false } ∧
      view d2 = view dict ∧ d2.txn = dict.txn ∧ d2.cursor = dict.cursor ∧
      d2.env.store = dict.env.store ∧ d2.env.live = dict.env.live ∧
      d2.env.rdonly = dict.env.rdonly ∧ d2.warnings = dict.warnings := by
  obtain ⟨flags, err, fb, env, txn, cur, kb, vb, w⟩ := dict
  obtain ⟨dw, di, t0, t1, fx, lk, dr, ff⟩ := flags
  obtain ⟨ro, st, lv, nx⟩ := env
  rcases hmiss with hmiss | hmiss <;>
  rcases txn with _ | ⟨ti, tro, td⟩ <;>
  cases t1 <;> cases ff <;>
    simp [view, folded] at h0 hmiss hget <;>
    simp [dict_mdb_lookup, mdb_txn_begin, mdb_get, mdb_txn_abort, view, cmem_succ,
      cmem_length, cmem_lowercase_succ, cmem_lowercase_length, MDB_SUCCESS, MDB_NOTFOUND,
      h0, hmiss, hget]

/-- A lookup that matches in no enabled encoding. -/
theorem lookup_missing (dict : DICT_MDB) (name : Bytes)
    (hflag : dict.flags.try1null = true ∨ dict.flags.try0null = true)
    (hmiss1 : dict.flags.try1null = false ∨
      (view dict).get (folded dict.flags name ++ [0]) = none)
    (hmiss0 : dict.flags.try0null = false ∨
      (view dict).get (folded dict.flags name) = none) :
    ∃ d2, dict_mdb_lookup dict name = .ok (none, d2) ∧
      d2.flags = dict.flags ∧
      view d2 = view dict ∧ d2.txn = dict.txn ∧ d2.cursor = dict.cursor ∧
      d2.env.store = dict.env.store ∧ d2.env.live = dict.env.live ∧
      d2.env.rdonly = dict.env.rdonly ∧ d2.warnings = dict.warnings := by
  obtain ⟨flags, err, fb, env, txn, cur, kb, vb, w⟩ := dict
  obtain ⟨dw, di, t0, t1, fx, lk, dr, ff⟩ := flags
  obtain ⟨ro, st, lv, nx⟩ := env
  rcases hmiss1 with hmiss1 | hmiss1 <;>
  rcases hmiss0 with hmiss0 | hmiss0 <;>
  rcases txn with _ | ⟨ti, tro, td⟩ <;>
  cases t1 <;> cases t0 <;> cases ff <;>
    simp [view, folded] at hflag hmiss1 hmiss0 <;>
    simp [dict_mdb_lookup, mdb_txn_begin, mdb_get, mdb_txn_abort, view, cmem_succ,
      cmem_length, cmem_lowercase_succ, cmem_lowercase_length, MDB_SUCCESS, MDB_NOTFOUND,
      hmiss1, hmiss0]

theorem narrow_fold_fix (ntn : Bool) (f : DictFlags) : (narrow ntn f).fold_fix = f.fold_fix := by
  unfold narrow
  split_ifs <;> rfl

theorem narrow_try0null (ntn : Bool) (f : DictFlags)
    (hflag : f.try1null = true ∨ f.try0null = true)
    (h : (narrow ntn f).try1null = false) : (narrow ntn f).try0null = true := by
  obtain ⟨dw, di, t0, t1, fx, lk, dr, ff⟩ := f
  cases t1 <;> cases t0 <;> cases ntn <;> simp_all [narrow]

theorem folded_narrow (ntn : Bool) (f : DictFlags) (name : Bytes) :
    folded (narrow ntn f) name = folded f name := by
  simp [folded, narrow_fold_fix]

/-! ## The claims -/

/-- C1: round trip of update then lookup. For every handle with at least one
encoding flag set that can write (ambient or private transaction, folding on
or off, either build default), every key and every value: when the update
stores the pair (the policy is replace, or the key is not yet present in the
encoding the update selects), the update returns 0 and the lookup that
follows on the same handle returns exactly the value. -/
theorem update_then_lookup_roundtrip (ntn : Bool) (dict : DICT_MDB) (name value : Bytes)
    (hflag : dict.flags.try1null = true ∨ dict.flags.try0null = true)
    (hw : writable dict)
    (hvalue : 0 ∉ value)
    (hst : dict.flags.dup_replace = true ∨
      (view dict).get (update_key ntn dict.flags name) = none) :
    ∃ d1 d2, dict_mdb_update ntn dict name value = .ok (0, d1) ∧
      dict_mdb_lookup d1 name = .ok (some value, d2) := by
  obtain ⟨d1, hu, hfl, hview, -⟩ := update_stored ntn dict name value hflag hw hst
  have hfold : folded d1.flags name = folded dict.flags name := by
    rw [hfl, folded_narrow]
  by_cases hn : (narrow ntn dict.flags).try1null = true
  · have hget : (view d1).get (folded d1.flags name ++ [0]) = some (value ++ [0]) := by
      rw [hview, hfold]
      simp only [update_key, update_value, hn, if_true]
      exact Store.get_insert_self _ _ _
    obtain ⟨d2, hl, -⟩ := lookup_found1 d1 name (value ++ [0]) (by rw [hfl]; exact hn) hget
    rw [SCOPY_append_zero value hvalue] at hl
    exact ⟨d1, d2, hu, hl⟩
  · have hn1 : (narrow ntn dict.flags).try1null = false := by simpa using hn
    have hn0 := narrow_try0null ntn dict.flags hflag hn1
    have hget : (view d1).get (folded d1.flags name) = some value := by
      rw [hview, hfold]
      simp only [update_key, update_value, hn1]
      exact Store.get_insert_self _ _ _
    obtain ⟨d2, hl, -⟩ := lookup_found0 d1 name value (by rw [hfl]; exact hn0)
      (Or.inl (by rw [hfl]; exact hn1)) hget
    rw [SCOPY_of_not_mem value hvalue] at hl
    exact ⟨d1, d2, hu, hl⟩

/-- Instance of C1: on a private-transaction handle with only the
terminator flag, over an empty table, writing 1 under a and reading a back. -/
theorem update_then_lookup_roundtrip_witness :
    ∃ d1 d2,
      dict_mdb_update false (idleHandle { noFlags with try1null := true } []) [97] [49]
        = .ok (0, d1) ∧
      dict_mdb_lookup d1 [97] = .ok (some [49], d2) :=
  update_then_lookup_roundtrip false (idleHandle { noFlags with try1null := true } [])
    [97] [49] (by decide) (by simp [writable, idleHandle]) (by decide) (by decide)


/-- C2 (defect): a handle opened read-write with only the try-without-terminator
flag has no ambient transaction. Over a table that holds 1 under the bare key
a, delete of a returns 0 (found) although it removed nothing: the table is
unchanged and the lookup that follows still returns 1; delete of the absent
key b returns 0 as well, not 1. -/
theorem delete_try0null_private_leaves_entry :
    (dict_mdb_open [([97], [49])] O_RDWR { noFlags with try0null := true } >>= fun d =>
      dict_mdb_delete d [97]).map (fun r => (r.1, r.2.env.store)) = .ok (0, [([97], [49])]) ∧
    (dict_mdb_open [([97], [49])] O_RDWR { noFlags with try0null := true } >>= fun d =>
      dict_mdb_delete d [97] >>= fun r =>
      dict_mdb_lookup r.2 [97]).map Prod.fst = .ok (some [49]) ∧
    (dict_mdb_open [([97], [49])] O_RDWR { noFlags with try0null := true } >>= fun d =>
      dict_mdb_delete d [98]).map Prod.fst = .ok 0 :=
  ⟨rfl, rfl, rfl⟩

/-- First traversal call on a handle without cursor over a non-empty committed table. -/
theorem sequence_open_found (dict : DICT_MDB) (function : Int) (key value : Option Bytes)
    (e : Bytes × Bytes) (rest : Store)
    (hfun : function = DICT_SEQ_FUN_FIRST ∨ function = DICT_SEQ_FUN_NEXT)
    (hc : dict.cursor = none) (hs : dict.env.store = e :: rest) :
    ∃ d1, dict_mdb_sequence dict function key value =
        .ok (0, some (SCOPY e.1), (if e.2.length > 0 then some (SCOPY e.2) else value), d1) ∧
      d1.cursor = some ⟨⟨dict.env.next, true, dict.env.store⟩, some 0⟩ ∧
      d1.env = { dict.env with live := dict.env.next :: dict.env.live,
                               next := dict.env.next + 1 } ∧
      d1.flags = dict.flags ∧ d1.txn = dict.txn ∧ d1.warnings = dict.warnings := by
  obtain ⟨flags, err, fb, env, txn, cur, kb, vb, w⟩ := dict
  obtain ⟨ro, st, lv, nx⟩ := env
  obtain ⟨k, v⟩ := e
  simp only at hc hs
  subst hc hs
  rcases hfun with hfun | hfun <;> subst hfun <;>
  by_cases hv : v.length > 0 <;>
    simp [dict_mdb_sequence, mdb_txn_begin, mdb_cursor_open, mdb_cursor_get, MDB_SUCCESS,
      MDB_NOTFOUND, DICT_SEQ_FUN_FIRST, DICT_SEQ_FUN_NEXT, hv]

/-- First traversal call on a handle without cursor over an empty committed table. -/
theorem sequence_open_empty (dict : DICT_MDB) (function : Int) (key value : Option Bytes)
    (hfun : function = DICT_SEQ_FUN_FIRST ∨ function = DICT_SEQ_FUN_NEXT)
    (hc : dict.cursor = none) (hs : dict.env.store = []) :
    ∃ d1, dict_mdb_sequence dict function key value = .ok (1, key, value, d1) ∧
      d1.cursor = none ∧
      d1.env = { dict.env with next := dict.env.next + 1 } ∧
      d1.flags = dict.flags ∧ d1.txn = dict.txn ∧ d1.warnings = dict.warnings := by
  obtain ⟨flags, err, fb, env, txn, cur, kb, vb, w⟩ := dict
  obtain ⟨ro, st, lv, nx⟩ := env
  simp only at hc hs
  subst hc hs
  rcases hfun with hfun | hfun <;> subst hfun <;>
    simp [dict_mdb_sequence, mdb_txn_begin, mdb_cursor_open, mdb_cursor_get, MDB_SUCCESS,
      MDB_NOTFOUND, DICT_SEQ_FUN_FIRST, DICT_SEQ_FUN_NEXT, mdb_txn_abort]

/-- A further traversal call that finds an entry after the current one. -/
theorem sequence_next_found (dict : DICT_MDB) (key value : Option Bytes)
    (t : MDB_txn) (i : Nat) (e : Bytes × Bytes)
    (hc : dict.cursor = some ⟨t, some i⟩) (hget : t.data[i + 1]? = some e) :
    ∃ d1, dict_mdb_sequence dict DICT_SEQ_FUN_NEXT key value =
        .ok (0, some (SCOPY e.1), (if e.2.length > 0 then some (SCOPY e.2) else value), d1) ∧
      d1.cursor = some ⟨t, some (i + 1)⟩ ∧ d1.env = dict.env ∧
      d1.flags = dict.flags ∧ d1.txn = dict.txn ∧ d1.warnings = dict.warnings := by
  obtain ⟨flags, err, fb, env, txn, cur, kb, vb, w⟩ := dict
  obtain ⟨k, v⟩ := e
  simp only at hc
  subst hc
  by_cases hv : v.length > 0 <;>
    simp [dict_mdb_sequence, mdb_cursor_get, MDB_SUCCESS, MDB_NOTFOUND, DICT_SEQ_FUN_FIRST,
      DICT_SEQ_FUN_NEXT, hv, hget]

/-- A further traversal call when the current entry is the last one. -/
theorem sequence_next_end (dict : DICT_MDB) (key value : Option Bytes)
    (t : MDB_txn) (i : Nat)
    (hc : dict.cursor = some ⟨t, some i⟩) (hget : t.data[i + 1]? = none) :
    ∃ d1, dict_mdb_sequence dict DICT_SEQ_FUN_NEXT key value = .ok (1, key, value, d1) ∧
      d1.cursor = none ∧ d1.env = mdb_txn_abort dict.env t ∧
      d1.flags = dict.flags ∧ d1.txn = dict.txn ∧ d1.warnings = dict.warnings := by
  obtain ⟨flags, err, fb, env, txn, cur, kb, vb, w⟩ := dict
  simp only at hc
  subst hc
  simp [dict_mdb_sequence, mdb_cursor_get, MDB_SUCCESS, MDB_NOTFOUND, DICT_SEQ_FUN_FIRST,
      DICT_SEQ_FUN_NEXT, hget]

/-- The rest of a traversal, from a positioned cursor to the end. -/
theorem sequence_all_rest (fuel : Nat) : ∀ (dict : DICT_MDB) (key value : Option Bytes)
    (t : MDB_txn) (i : Nat), dict.cursor = some ⟨t, some i⟩ →
    t.data.length - (i + 1) < fuel →
    ∃ rs d1, sequence_all fuel dict DICT_SEQ_FUN_NEXT key value = some (.ok (rs, 1, d1)) ∧
      List.Forall₂ delivered (t.data.drop (i + 1)) rs ∧
      d1.cursor = none ∧ d1.env = mdb_txn_abort dict.env t ∧
      d1.flags = dict.flags ∧ d1.txn = dict.txn ∧ d1.warnings = dict.warnings := by
  induction fuel with
  | zero =>
    intro dict key value t i hc hlen
    omega
  | succ n ih =>
    intro dict key value t i hc hlen
    rcases hget : t.data[i + 1]? with _ | e
    · obtain ⟨d1, hs, hcur, henv, hfl, htx, hwn⟩ := sequence_next_end dict key value t i hc hget
      refine ⟨[], d1, ?_, ?_, hcur, henv, hfl, htx, hwn⟩
      · simp [sequence_all, hs]
      · have : t.data.length ≤ i + 1 := List.getElem?_eq_none_iff.mp hget
        rw [List.drop_eq_nil_of_le this]
        exact List.Forall₂.nil
    · obtain ⟨d1, hs, hcur, henv, hfl, htx, hwn⟩ :=
        sequence_next_found dict key value t i e hc hget
      have hlt : i + 1 < t.data.length := by
        by_contra hge
        have : t.data[i + 1]? = none := List.getElem?_eq_none_iff.mpr (by omega)
        rw [this] at hget
        cases hget
      obtain ⟨rs, d2, hrest, hall, hcur2, henv2, hfl2, htx2, hwn2⟩ :=
        ih d1 (some (SCOPY e.1)) (if e.2.length > 0 then some (SCOPY e.2) else value)
          t (i + 1) hcur (by omega)
      refine ⟨(some (SCOPY e.1), if e.2.length > 0 then some (SCOPY e.2) else value) :: rs,
        d2, ?_, ?_, hcur2, by rw [henv2, henv], by rw [hfl2, hfl], by rw [htx2, htx],
        by rw [hwn2, hwn]⟩
      · simp [sequence_all, hs, hrest]
      · have hdrop : t.data.drop (i + 1) = e :: t.data.drop (i + 1 + 1) := by
          rw [List.drop_eq_getElem_cons hlt]
          congr 1
          have := List.getElem?_eq_getElem hlt
          rw [this] at hget
          exact Option.some.inj hget
        rw [hdrop]
        refine List.Forall₂.cons ⟨rfl, ?_⟩ hall
        intro hne
        have : e.2.length > 0 := List.length_pos.mpr hne
        simp [this]

theorem delivered_keys (store : Store) (rs : List (Option Bytes × Option Bytes))
    (h : List.Forall₂ delivered store rs) :
    rs.map Prod.fst = store.map (fun e => some (SCOPY e.1)) := by
  induction h with
  | nil => rfl
  | cons hd _ ih => simp [hd.1, ih]

/-- A full traversal from a handle without cursor, whichever request starts it. -/
theorem sequence_all_from_idle (dict : DICT_MDB) (fuel : Nat) (function : Int)
    (key value : Option Bytes)
    (hfun : function = DICT_SEQ_FUN_FIRST ∨ function = DICT_SEQ_FUN_NEXT)
    (hc : dict.cursor = none) (hfuel : dict.env.store.length < fuel) :
    ∃ rs d1, sequence_all fuel dict function key value = some (.ok (rs, 1, d1)) ∧
      List.Forall₂ delivered dict.env.store rs ∧
      d1.cursor = none ∧ d1.env.live = dict.env.live ∧ d1.env.store = dict.env.store ∧
      d1.env.rdonly = dict.env.rdonly ∧
      d1.flags = dict.flags ∧ d1.txn = dict.txn ∧ d1.warnings = dict.warnings := by
  obtain ⟨n, rfl⟩ : ∃ n, fuel = n + 1 := ⟨fuel - 1, by omega⟩
  rcases hs : dict.env.store with _ | ⟨e, rest⟩
  · obtain ⟨d1, hq, hcur, henv, hfl, htx, hwn⟩ :=
      sequence_open_empty dict function key value hfun hc hs
    refine ⟨[], d1, ?_, List.Forall₂.nil, hcur, ?_, ?_, ?_, hfl, htx, hwn⟩
    · simp [sequence_all, hq]
    · rw [henv]
    · rw [henv, hs]
    · rw [henv]
  · obtain ⟨d1, hq, hcur, henv, hfl, htx, hwn⟩ :=
      sequence_open_found dict function key value e rest hfun hc hs
    have hlen : (MDB_txn.mk dict.env.next true dict.env.store).data.length - (0 + 1) < n := by
      simp only [hs, List.length_cons] at hfuel ⊢
      omega
    obtain ⟨rs, d2, hrest, hall, hcur2, henv2, hfl2, htx2, hwn2⟩ :=
      sequence_all_rest n d1 (some (SCOPY e.1))
        (if e.2.length > 0 then some (SCOPY e.2) else value) _ 0 hcur hlen
    refine ⟨(some (SCOPY e.1), if e.2.length > 0 then some (SCOPY e.2) else value) :: rs,
      d2, ?_, ?_, hcur2, ?_, ?_, ?_, by rw [hfl2, hfl], by rw [htx2, htx], by rw [hwn2, hwn]⟩
    · simp [sequence_all, hq, hrest]
    · simp only [hs, List.drop_succ_cons, List.drop_zero, zero_add] at hall
      refine List.Forall₂.cons ⟨rfl, ?_⟩ hall
      intro hne
      have : e.2.length > 0 := List.length_pos.mpr hne
      simp [this]
    · rw [henv2, henv]
      simp [mdb_txn_abort]
    · rw [henv2, henv]
      simp [mdb_txn_abort, hs]
    · rw [henv2, henv]
      simp [mdb_txn_abort]

/-- C3 (as stated, refuted): over the well-formed table that holds 1 under the
key a both without and with the terminator byte, a freshly opened handle has
no cursor, and its traversal has two successful steps that both return the
pair (a, 1): the returned pairs are not pairwise distinct. -/
theorem sequence_all_repeats_pair :
    Store.sorted [([97], [49]), ([97, 0], [49, 0])] = true ∧
    (dict_mdb_open [([97], [49]), ([97, 0], [49, 0])] O_RDONLY noFlags).map
        (fun d => (d.cursor, d.env.store)) = .ok (none, [([97], [49]), ([97, 0], [49, 0])]) ∧
    (match dict_mdb_open [([97], [49]), ([97, 0], [49, 0])] O_RDONLY noFlags with
      | .ok d => (sequence_all 3 d DICT_SEQ_FUN_FIRST none none).map
                   (Except.map (fun r => (r.1, r.2.1)))
      | .error _ => none)
      = some (.ok ([(some [97], some [49]), (some [97], some [49])], 1)) ∧
    ¬ [((some [97] : Option Bytes), (some [49] : Option Bytes)),
       (some [97], some [49])].Nodup :=
  ⟨rfl, rfl, rfl, by decide⟩

/-- C3 (amended): for every handle without active cursor over a committed table
of N entries, sequence(FIRST) followed by sequence(NEXT) until the first
status other than 0 makes exactly N successful steps, one per entry in cursor
order, and then reports end-of-sequence (status 1), releasing cursor and
read transaction. The key delivered for an entry is its stored key up to the
first zero byte; the value delivered for an entry whose stored value is
non-empty is that value up to the first zero byte. The delivered pairs are
pairwise distinct when no two stored keys agree up to their first zero byte. -/
theorem sequence_all_complete (dict : DICT_MDB) (fuel : Nat) (key value : Option Bytes)
    (hc : dict.cursor = none) (hfuel : dict.env.store.length < fuel) :
    ∃ rs d1, sequence_all fuel dict DICT_SEQ_FUN_FIRST key value = some (.ok (rs, 1, d1)) ∧
      rs.length = dict.env.store.length ∧
      List.Forall₂ delivered dict.env.store rs ∧
      ((dict.env.store.map (fun e => SCOPY e.1)).Nodup → rs.Nodup) ∧
      d1.cursor = none ∧ d1.env.live = dict.env.live ∧
      d1.env.store = dict.env.store := by
  obtain ⟨rs, d1, hq, hall, hcur, hlive, hstore, -⟩ :=
    sequence_all_from_idle dict fuel DICT_SEQ_FUN_FIRST key value (Or.inl rfl) hc hfuel
  refine ⟨rs, d1, hq, hall.length_eq.symm, hall, ?_, hcur, hlive, hstore⟩
  intro hnd
  have hkeys := delivered_keys _ _ hall
  have hnd2 : (dict.env.store.map (fun e => some (SCOPY e.1))).Nodup := by
    have : dict.env.store.map (fun e => some (SCOPY e.1))
        = (dict.env.store.map (fun e => SCOPY e.1)).map some := by
      simp [List.map_map]
    rw [this]
    exact hnd.map (Option.some_injective _)
  rw [← hkeys] at hnd2
  exact List.Nodup.of_map _ hnd2

/-- Instance of C3 (amended): a table of two entries, traversed with fuel 3. -/
theorem sequence_all_complete_witness :
    ∃ rs d1,
      sequence_all 3 (idleHandle { noFlags with try1null := true }
          [([97, 0], [49, 0]), ([98, 0], [50, 0])]) DICT_SEQ_FUN_FIRST none none
        = some (.ok (rs, 1, d1)) ∧
      rs.length = 2 ∧
      List.Forall₂ delivered [([97, 0], [49, 0]), ([98, 0], [50, 0])] rs ∧
      (([([97, 0], [49, 0]), ([98, 0], [50, 0])].map (fun e => SCOPY e.1)).Nodup → rs.Nodup) ∧
      d1.cursor = none ∧ d1.env.live = [] ∧
      d1.env.store = [([97, 0], [49, 0]), ([98, 0], [50, 0])] :=
  sequence_all_complete (idleHandle { noFlags with try1null := true }
    [([97, 0], [49, 0]), ([98, 0], [50, 0])]) 3 none none rfl (by decide)


/-- An update that collides under a policy other than replace and is not fatal. -/
theorem update_kept (ntn : Bool) (dict : DICT_MDB) (name value old : Bytes)
    (hflag : dict.flags.try1null = true ∨ dict.flags.try0null = true)
    (hw : writable dict)
    (hrep : dict.flags.dup_replace = false)
    (hpol : dict.flags.dup_ignore = true ∨ dict.flags.dup_warn = true)
    (hget : (view dict).get (update_key ntn dict.flags name) = some old) :
    ∃ d1, dict_mdb_update ntn dict name value
        = .ok ((if dict.txn.isSome then MDB_KEYEXIST else 0), d1) ∧
      d1.flags = narrow ntn dict.flags ∧
      view d1 = view dict ∧ d1.txn = dict.txn ∧
      (dict.txn.isSome = true → d1.env = dict.env) ∧
      d1.env.store = dict.env.store ∧
      d1.env.rdonly = dict.env.rdonly ∧ d1.env.live = dict.env.live ∧
      d1.cursor = dict.cursor ∧
      d1.warnings = (if dict.flags.dup_ignore then dict.warnings
                     else dict.warnings ++ [folded dict.flags name]) := by
  obtain ⟨flags, err, fb, env, txn, cur, kb, vb, w⟩ := dict
  obtain ⟨dw, di, t0, t1, fx, lk, dr, ff⟩ := flags
  obtain ⟨ro, st, lv, nx⟩ := env
  simp only at hrep
  subst hrep
  rcases hpol with hpol | hpol <;>
  rcases txn with _ | ⟨ti, tro, td⟩ <;>
  cases t1 <;> cases t0 <;> cases ff <;> cases ntn <;> cases di <;>
    simp [writable, view, update_key, update_value, narrow, folded] at hflag hw hget hpol <;>
    simp [dict_mdb_update, mdb_txn_begin, mdb_put, mdb_txn_commit, view, update_key,
      update_value, cmem_succ, cmem_length, MDB_SUCCESS, MDB_KEYEXIST, narrow, folded,
      hw, hget, hpol]

/-- C4 (defect): under policy ignore, over a table that holds 1 under the
terminator form of a, an update of a in its own private transaction returns 0
and leaves the table alone: the same status as the successful insert of a
into the empty table. With an ambient write transaction (open with O_TRUNC)
the second update of the same key returns the non-zero status MDB_KEYEXIST. -/
theorem update_ignore_private_returns_zero :
    (dict_mdb_open [([97, 0], [49, 0])] O_RDWR
        { noFlags with dup_ignore := true, try1null := true } >>= fun d =>
      dict_mdb_update false d [97] [50]).map (fun r => (r.1, r.2.env.store))
      = .ok (0, [([97, 0], [49, 0])]) ∧
    (dict_mdb_open [] O_RDWR
        { noFlags with dup_ignore := true, try1null := true } >>= fun d =>
      dict_mdb_update false d [97] [50]).map (fun r => (r.1, r.2.env.store))
      = .ok (0, [([97, 0], [50, 0])]) ∧
    (dict_mdb_open [] O_TRUNC { noFlags with dup_ignore := true, try1null := true } >>= fun d =>
      dict_mdb_update false d [97] [49] >>= fun r =>
      dict_mdb_update false r.2 [97] [50]).map (fun r => (r.1, view r.2))
      = .ok (MDB_KEYEXIST, [([97, 0], [49, 0])]) :=
  ⟨rfl, rfl, rfl⟩

/-- C5 (as stated, refuted): under policy warn, over a table that holds 1 under
the terminator form of a, update of a with 2 returns, reports the key in a
warning, and leaves the stored value 1: the lookup that follows returns 1,
not 2. -/
theorem update_warn_keeps_old_value :
    (dict_mdb_open [([97, 0], [49, 0])] O_RDWR
        { noFlags with dup_warn := true, try1null := true } >>= fun d =>
      dict_mdb_update false d [97] [50]).map (fun r => (r.2.env.store, r.2.warnings))
      = .ok ([([97, 0], [49, 0])], [[97]]) ∧
    (dict_mdb_open [([97, 0], [49, 0])] O_RDWR
        { noFlags with dup_warn := true, try1null := true } >>= fun d =>
      dict_mdb_update false d [97] [50] >>= fun r =>
      dict_mdb_lookup r.2 [97]).map Prod.fst = .ok (some [49]) ∧
    (dict_mdb_open [([97, 0], [49, 0])] O_RDWR
        { noFlags with dup_warn := true, try1null := true } >>= fun d =>
      dict_mdb_update false d [97] [50] >>= fun r =>
      dict_mdb_lookup r.2 [97]).map Prod.fst ≠ .ok (some [50]) :=
  ⟨rfl, rfl, by
    have h : (dict_mdb_open [([97, 0], [49, 0])] O_RDWR
        { noFlags with dup_warn := true, try1null := true } >>= fun d =>
      dict_mdb_update false d [97] [50] >>= fun r =>
      dict_mdb_lookup r.2 [97]).map Prod.fst = .ok (some [49]) := rfl
    rw [h]
    intro hc
    cases hc⟩

/-- C5 (amended): under policy warn (warn set, replace and ignore clear), an
update of a key that already exists in the selected encoding leaves the
stored value and the whole table unchanged, emits a warning that names the
folded key, and returns without terminating the process; the lookup that
follows returns the original value (up to its first zero byte). -/
theorem update_warn_keeps_value (ntn : Bool) (dict : DICT_MDB) (name value old : Bytes)
    (hflag : dict.flags.try1null = true ∨ dict.flags.try0null = true)
    (hw : writable dict)
    (hwarn : dict.flags.dup_warn = true)
    (hrep : dict.flags.dup_replace = false)
    (hign : dict.flags.dup_ignore = false)
    (hget : (view dict).get (update_key ntn dict.flags name) = some old) :
    ∃ status d1 d2, dict_mdb_update ntn dict name value = .ok (status, d1) ∧
      view d1 = view dict ∧
      d1.warnings = dict.warnings ++ [folded dict.flags name] ∧
      dict_mdb_lookup d1 name = .ok (some (SCOPY old), d2) := by
  obtain ⟨d1, hu, hfl, hview, -, -, -, -, -, -, hwn⟩ :=
    update_kept ntn dict name value old hflag hw hrep (Or.inr hwarn) hget
  have hfold : folded d1.flags name = folded dict.flags name := by
    rw [hfl, folded_narrow]
  rw [hign] at hwn
  by_cases hn : (narrow ntn dict.flags).try1null = true
  · have hget1 : (view d1).get (folded d1.flags name ++ [0]) = some old := by
      rw [hview, hfold]
      simpa only [update_key, hn, if_true] using hget
    obtain ⟨d2, hl, -⟩ := lookup_found1 d1 name old (by rw [hfl]; exact hn) hget1
    exact ⟨_, d1, d2, hu, hview, by simpa using hwn, hl⟩
  · have hn1 : (narrow ntn dict.flags).try1null = false := by simpa using hn
    have hn0 := narrow_try0null ntn dict.flags hflag hn1
    have hget0 : (view d1).get (folded d1.flags name) = some old := by
      rw [hview, hfold]
      simpa [update_key, hn1] using hget
    obtain ⟨d2, hl, -⟩ := lookup_found0 d1 name old (by rw [hfl]; exact hn0)
      (Or.inl (by rw [hfl]; exact hn1)) hget0
    exact ⟨_, d1, d2, hu, hview, by simpa using hwn, hl⟩

/-- Instance of C5 (amended): policy warn, the table holds 1 under a. -/
theorem update_warn_keeps_value_witness :
    ∃ status d1 d2,
      dict_mdb_update false
        (idleHandle { noFlags with dup_warn := true, try1null := true }
          [([97, 0], [49, 0])]) [97] [50] = .ok (status, d1) ∧
      view d1 = [([97, 0], [49, 0])] ∧
      d1.warnings = [[97]] ∧
      dict_mdb_lookup d1 [97] = .ok (some [49], d2) :=
  update_warn_keeps_value false
    (idleHandle { noFlags with dup_warn := true, try1null := true } [([97, 0], [49, 0])])
    [97] [50] [49, 0] (by decide) (by simp [writable, idleHandle]) rfl rfl rfl rfl


/-- The encoding flags after a delete that returns: unchanged, or narrowed to
the representation that was found. -/
theorem delete_flags (dict : DICT_MDB) (name : Bytes) (status : Int) (d1 : DICT_MDB)
    (h : dict_mdb_delete dict name = .ok (status, d1)) :
    d1.flags = dict.flags ∨
    (dict.flags.try1null = true ∧ d1.flags = { dict.flags with try0null := false }) ∨
    (dict.flags.try0null = true ∧ d1.flags = { dict.flags with try1null := false }) := by
  rcases hg1 : (view dict).get (folded dict.flags name ++ [0]) with _ | v1 <;>
  rcases hg0 : (view dict).get (folded dict.flags name) with _ | v0 <;>
  obtain ⟨flags, err, fb, env, txn, cur, kb, vb, w⟩ := dict <;>
  obtain ⟨dw, di, t0, t1, fx, lk, dr, ff⟩ := flags <;>
  obtain ⟨ro, st, lv, nx⟩ := env <;>
  rcases txn with _ | ⟨ti, tro, td⟩ <;>
  cases t1 <;> cases t0 <;> cases ff <;> (first | cases tro | cases ro) <;>
    simp [view, folded] at hg1 hg0 <;>
    simp [dict_mdb_delete, mdb_txn_begin, mdb_del, mdb_txn_commit, cmem_succ, cmem_length,
      cmem_lowercase_succ, cmem_lowercase_length, MDB_SUCCESS, MDB_NOTFOUND, EACCES,
      hg1, hg0] at h <;>
    (obtain ⟨-, rfl⟩ := h) <;> simp
/-- No encoding flag: the sanity check of update panics. -/
theorem update_no_flag (ntn : Bool) (dict : DICT_MDB) (name value : Bytes)
    (h1 : dict.flags.try1null = false) (h0 : dict.flags.try0null = false) :
    dict_mdb_update ntn dict name value = .error .panic_no_flag := by
  simp [dict_mdb_update, h1, h0]

/-- An update through a handle that cannot write is fatal. -/
theorem update_not_writable (ntn : Bool) (dict : DICT_MDB) (name value : Bytes)
    (hflag : dict.flags.try1null = true ∨ dict.flags.try0null = true)
    (hw : ¬ writable dict) :
    dict_mdb_update ntn dict name value = .error (.fatal_txn_begin EACCES) ∨
    dict_mdb_update ntn dict name value = .error (.fatal_write EACCES) := by
  obtain ⟨flags, err, fb, env, txn, cur, kb, vb, w⟩ := dict
  obtain ⟨dw, di, t0, t1, fx, lk, dr, ff⟩ := flags
  obtain ⟨ro, st, lv, nx⟩ := env
  rcases txn with _ | ⟨ti, tro, td⟩ <;>
  cases t1 <;> cases t0 <;> cases ff <;> cases ntn <;>
    simp [writable] at hflag hw <;>
    simp [dict_mdb_update, mdb_txn_begin, mdb_put, EACCES, MDB_KEYEXIST, hw]

/-- A collision under the fatal policy terminates the process. -/
theorem update_fatal (ntn : Bool) (dict : DICT_MDB) (name value old : Bytes)
    (hflag : dict.flags.try1null = true ∨ dict.flags.try0null = true)
    (hw : writable dict)
    (hrep : dict.flags.dup_replace = false)
    (hign : dict.flags.dup_ignore = false) (hwarn : dict.flags.dup_warn = false)
    (hget : (view dict).get (update_key ntn dict.flags name) = some old) :
    dict_mdb_update ntn dict name value = .error (.fatal_duplicate (folded dict.flags name)) := by
  obtain ⟨flags, err, fb, env, txn, cur, kb, vb, w⟩ := dict
  obtain ⟨dw, di, t0, t1, fx, lk, dr, ff⟩ := flags
  obtain ⟨ro, st, lv, nx⟩ := env
  simp only at hrep hign hwarn
  subst hrep hign hwarn
  rcases txn with _ | ⟨ti, tro, td⟩ <;>
  cases t1 <;> cases t0 <;> cases ff <;> cases ntn <;>
    simp [writable, view, update_key, update_value, narrow, folded] at hflag hw hget <;>
    simp [dict_mdb_update, mdb_txn_begin, mdb_put, mdb_txn_commit, view, update_key,
      update_value, cmem_succ, cmem_length, MDB_SUCCESS, MDB_KEYEXIST, narrow, folded,
      hw, hget]

/-- The encoding flags after an update that returns. -/
theorem update_flags (ntn : Bool) (dict : DICT_MDB) (name value : Bytes) (status : Int)
    (d1 : DICT_MDB) (h : dict_mdb_update ntn dict name value = .ok (status, d1)) :
    d1.flags = narrow ntn dict.flags := by
  by_cases hflag : dict.flags.try1null = true ∨ dict.flags.try0null = true
  · by_cases hw : writable dict
    · by_cases hst : dict.flags.dup_replace = true ∨
          (view dict).get (update_key ntn dict.flags name) = none
      · obtain ⟨d, hu, hfl, -⟩ := update_stored ntn dict name value hflag hw hst
        rw [hu] at h
        cases h
        exact hfl
      · simp only [not_or] at hst
        obtain ⟨old, hold⟩ := Option.ne_none_iff_exists'.mp hst.2
        have hrep : dict.flags.dup_replace = false := by simpa using hst.1
        by_cases hpol : dict.flags.dup_ignore = true ∨ dict.flags.dup_warn = true
        · obtain ⟨d, hu, hfl, -⟩ := update_kept ntn dict name value old hflag hw hrep hpol hold
          rw [hu] at h
          cases h
          exact hfl
        · simp only [not_or] at hpol
          rw [update_fatal ntn dict name value old hflag hw hrep (by simpa using hpol.1)
            (by simpa using hpol.2) hold] at h
          cases h
    · rcases update_not_writable ntn dict name value hflag hw with he | he <;>
        rw [he] at h <;> cases h
  · simp only [not_or] at hflag
    rw [update_no_flag ntn dict name value (by simpa using hflag.1) (by simpa using hflag.2)] at h
    cases h

/-- With an encoding flag set, update does not hit its sanity check. -/
theorem update_no_panic (ntn : Bool) (dict : DICT_MDB) (name value : Bytes)
    (hflag : dict.flags.try1null = true ∨ dict.flags.try0null = true) :
    dict_mdb_update ntn dict name value ≠ .error .panic_no_flag := by
  intro h
  by_cases hw : writable dict
  · by_cases hst : dict.flags.dup_replace = true ∨
        (view dict).get (update_key ntn dict.flags name) = none
    · obtain ⟨d, hu, -⟩ := update_stored ntn dict name value hflag hw hst
      rw [hu] at h
      cases h
    · simp only [not_or] at hst
      obtain ⟨old, hold⟩ := Option.ne_none_iff_exists'.mp hst.2
      have hrep : dict.flags.dup_replace = false := by simpa using hst.1
      by_cases hpol : dict.flags.dup_ignore = true ∨ dict.flags.dup_warn = true
      · obtain ⟨d, hu, -⟩ := update_kept ntn dict name value old hflag hw hrep hpol hold
        rw [hu] at h
        cases h
      · simp only [not_or] at hpol
        rw [update_fatal ntn dict name value old hflag hw hrep (by simpa using hpol.1)
          (by simpa using hpol.2) hold] at h
        cases h
  · rcases update_not_writable ntn dict name value hflag hw with he | he <;>
      rw [he] at h <;> cases h

/-- With an encoding flag set, a lookup returns, and leaves an encoding flag set. -/
theorem lookup_returns (dict : DICT_MDB) (name : Bytes)
    (hflag : dict.flags.try1null = true ∨ dict.flags.try0null = true) :
    ∃ r d1, dict_mdb_lookup dict name = .ok (r, d1) ∧
      (d1.flags = dict.flags ∨
       (dict.flags.try1null = true ∧ d1.flags = { dict.flags with try0null := false }) ∨
       (dict.flags.try0null = true ∧ d1.flags = { dict.flags with try1null := false })) := by
  by_cases h1 : dict.flags.try1null = true ∧
      ∃ v, (view dict).get (folded dict.flags name ++ [0]) = some v
  · obtain ⟨ht, v, hv⟩ := h1
    obtain ⟨d2, hl, hfl, -⟩ := lookup_found1 dict name v ht hv
    exact ⟨_, d2, hl, Or.inr (Or.inl ⟨ht, hfl⟩)⟩
  · have hmiss1 : dict.flags.try1null = false ∨
        (view dict).get (folded dict.flags name ++ [0]) = none := by
      by_cases ht : dict.flags.try1null = true
      · right
        by_contra hne
        obtain ⟨v, hv⟩ := Option.ne_none_iff_exists'.mp hne
        exact h1 ⟨ht, v, hv⟩
      · left
        simpa using ht
    by_cases h0 : dict.flags.try0null = true ∧
        ∃ v, (view dict).get (folded dict.flags name) = some v
    · obtain ⟨ht, v, hv⟩ := h0
      obtain ⟨d2, hl, hfl, -⟩ := lookup_found0 dict name v ht hmiss1 hv
      exact ⟨_, d2, hl, Or.inr (Or.inr ⟨ht, hfl⟩)⟩
    · have hmiss0 : dict.flags.try0null = false ∨
          (view dict).get (folded dict.flags name) = none := by
        by_cases ht : dict.flags.try0null = true
        · right
          by_contra hne
          obtain ⟨v, hv⟩ := Option.ne_none_iff_exists'.mp hne
          exact h0 ⟨ht, v, hv⟩
        · left
          simpa using ht
      obtain ⟨d2, hl, hfl, -⟩ := lookup_missing dict name hflag hmiss1 hmiss0
      exact ⟨_, d2, hl, Or.inl hfl⟩

/-- With an encoding flag set, delete does not hit its sanity check. -/
theorem delete_no_panic (dict : DICT_MDB) (name : Bytes)
    (hflag : dict.flags.try1null = true ∨ dict.flags.try0null = true) :
    dict_mdb_delete dict name ≠ .error .panic_no_flag := by
  intro h
  rcases hg1 : (view dict).get (folded dict.flags name ++ [0]) with _ | v1 <;>
  rcases hg0 : (view dict).get (folded dict.flags name) with _ | v0 <;>
  obtain ⟨flags, err, fb, env, txn, cur, kb, vb, w⟩ := dict <;>
  obtain ⟨dw, di, t0, t1, fx, lk, dr, ff⟩ := flags <;>
  obtain ⟨ro, st, lv, nx⟩ := env <;>
  rcases txn with _ | ⟨ti, tro, td⟩ <;>
  cases t1 <;> cases t0 <;> cases ff <;> (first | cases tro | cases ro) <;>
    simp [view, folded] at hg1 hg0 hflag <;>
    simp [dict_mdb_delete, mdb_txn_begin, mdb_del, mdb_txn_commit, cmem_succ, cmem_length,
      cmem_lowercase_succ, cmem_lowercase_length, MDB_SUCCESS, MDB_NOTFOUND, EACCES,
      hg1, hg0] at h

/-- A traversal call does not touch the flags, nor the ambient transaction. -/
theorem sequence_flags (dict : DICT_MDB) (function : Int) (key value : Option Bytes)
    (r : Int × Option Bytes × Option Bytes × DICT_MDB)
    (h : dict_mdb_sequence dict function key value = .ok r) :
    r.2.2.2.flags = dict.flags ∧ r.2.2.2.txn = dict.txn := by
  obtain ⟨flags, err, fb, env, txn, cur, kb, vb, w⟩ := dict
  unfold dict_mdb_sequence at h
  simp only at h
  split at h
  · cases h
  · split at h
    · cases h
    · rename_i x env1 cursor hx
      split_ifs at h <;> cases h <;> exact ⟨rfl, rfl⟩

/-- A traversal call never ends in the sanity check of the encoding flags. -/
theorem sequence_no_flag_panic (dict : DICT_MDB) (function : Int) (key value : Option Bytes) :
    dict_mdb_sequence dict function key value ≠ .error .panic_no_flag := by
  intro h
  unfold dict_mdb_sequence at h
  simp only at h
  split at h
  · cases h
  · split at h
    · rename_i x e hx
      cases h
      split at hx
      · cases hx
      · split at hx
        · cases hx
        · split_ifs at hx
          cases hx
    · split_ifs at h
      cases h

/-- Opening always succeeds, and sets both encoding flags when the caller set none. -/
theorem open_returns (file : Store) (open_flags : Nat) (dict_flags : DictFlags) :
    ∃ d0, dict_mdb_open file open_flags dict_flags = .ok d0 ∧
      d0.flags.try1null = (dict_flags.try1null || !dict_flags.try0null) ∧
      d0.flags.try0null = (dict_flags.try0null || !dict_flags.try1null) ∧
      d0.flags.fold_fix = dict_flags.fold_fix ∧
      d0.flags.dup_replace = dict_flags.dup_replace ∧
      d0.flags.dup_ignore = dict_flags.dup_ignore ∧
      d0.flags.dup_warn = dict_flags.dup_warn ∧
      d0.cursor = none ∧ d0.env.store = file ∧ d0.warnings = [] ∧
      d0.env.rdonly = decide (open_flags = O_RDONLY) ∧
      (d0.txn = if open_flags &&& O_TRUNC ≠ 0 then some ⟨0, false, []⟩ else none) ∧
      (d0.env.live = if open_flags &&& O_TRUNC ≠ 0 then [0] else []) := by
  obtain ⟨dw, di, t0, t1, fx, lk, dr, ff⟩ := dict_flags
  by_cases htr : open_flags &&& O_TRUNC ≠ 0
  · have hne : open_flags ≠ 0 := by
      rintro rfl
      simp at htr
    cases t1 <;> cases t0 <;>
      simp [dict_mdb_open, mdb_txn_begin, mdb_drop, O_RDONLY, htr, hne, MDB_SUCCESS]
  · by_cases hro : open_flags = 0 <;> cases t1 <;> cases t0 <;>
      simp [dict_mdb_open, mdb_txn_begin, mdb_txn_abort, O_RDONLY, htr, hro, MDB_SUCCESS]


/-- One call keeps an encoding flag set and does not hit the sanity check. -/
theorem apply_op_keeps_flag (ntn : Bool) (dict : DICT_MDB) (op : Op)
    (hflag : dict.flags.try1null = true ∨ dict.flags.try0null = true) :
    apply_op ntn dict op ≠ .error .panic_no_flag ∧
    ∀ d1, apply_op ntn dict op = .ok d1 →
      (d1.flags.try1null = true ∨ d1.flags.try0null = true) := by
  cases op with
  | lookup name =>
    obtain ⟨r, d, hl, hfl⟩ := lookup_returns dict name hflag
    simp only [apply_op, hl, Except.map]
    refine ⟨by simp, ?_⟩
    intro d1 h
    cases h
    rcases hfl with h | ⟨ht, h⟩ | ⟨ht, h⟩
    · rw [h]; exact hflag
    · rw [h]; exact Or.inl ht
    · rw [h]; exact Or.inr ht
  | update name value =>
    constructor
    · intro h
      apply update_no_panic ntn dict name value hflag
      simp only [apply_op] at h
      cases hu : dict_mdb_update ntn dict name value with
      | error e => rw [hu] at h; simp only [Except.map] at h; cases h; rfl
      | ok r => rw [hu] at h; simp only [Except.map] at h; cases h
    · intro d1 h
      simp only [apply_op] at h
      cases hu : dict_mdb_update ntn dict name value with
      | error e => rw [hu] at h; simp only [Except.map] at h; cases h
      | ok r =>
        rw [hu] at h
        simp only [Except.map] at h
        cases h
        obtain ⟨st, d⟩ := r
        have hfl := update_flags ntn dict name value st d hu
        simp only [hfl]
        by_cases hn : (narrow ntn dict.flags).try1null = true
        · exact Or.inl hn
        · exact Or.inr (narrow_try0null ntn dict.flags hflag (by simpa using hn))
  | delete name =>
    constructor
    · intro h
      apply delete_no_panic dict name hflag
      simp only [apply_op] at h
      cases hu : dict_mdb_delete dict name with
      | error e => rw [hu] at h; simp only [Except.map] at h; cases h; rfl
      | ok r => rw [hu] at h; simp only [Except.map] at h; cases h
    · intro d1 h
      simp only [apply_op] at h
      cases hu : dict_mdb_delete dict name with
      | error e => rw [hu] at h; simp only [Except.map] at h; cases h
      | ok r =>
        rw [hu] at h
        simp only [Except.map] at h
        cases h
        obtain ⟨st, d⟩ := r
        rcases delete_flags dict name st d hu with h | ⟨ht, h⟩ | ⟨ht, h⟩
        · simp only [h]; exact hflag
        · simp only [h]; exact Or.inl ht
        · simp only [h]; exact Or.inr ht
  | sequence function key value =>
    constructor
    · intro h
      apply sequence_no_flag_panic dict function key value
      simp only [apply_op] at h
      cases hu : dict_mdb_sequence dict function key value with
      | error e => rw [hu] at h; simp only [Except.map] at h; cases h; rfl
      | ok r => rw [hu] at h; simp only [Except.map] at h; cases h
    · intro d1 h
      simp only [apply_op] at h
      cases hu : dict_mdb_sequence dict function key value with
      | error e => rw [hu] at h; simp only [Except.map] at h; cases h
      | ok r =>
        rw [hu] at h
        simp only [Except.map] at h
        cases h
        rw [(sequence_flags dict function key value r hu).1]
        exact hflag

/-- A series of calls keeps an encoding flag set and never hits the sanity check. -/
theorem run_ops_keeps_flag (ntn : Bool) (ops : List Op) : ∀ (dict : DICT_MDB),
    (dict.flags.try1null = true ∨ dict.flags.try0null = true) →
    run_ops ntn dict ops ≠ .error .panic_no_flag ∧
    ∀ d1, run_ops ntn dict ops = .ok d1 →
      (d1.flags.try1null = true ∨ d1.flags.try0null = true) := by
  induction ops with
  | nil =>
    intro dict hflag
    refine ⟨by simp [run_ops], ?_⟩
    intro d1 h
    simp only [run_ops] at h
    cases h
    exact hflag
  | cons op ops ih =>
    intro dict hflag
    obtain ⟨hnp, hkeep⟩ := apply_op_keeps_flag ntn dict op hflag
    cases ha : apply_op ntn dict op with
    | error e =>
      simp only [run_ops, ha]
      refine ⟨?_, ?_⟩
      · intro h
        cases h
        exact hnp ha
      · intro d1 h
        cases h
    | ok d =>
      simp only [run_ops, ha]
      exact ih d (hkeep d ha)

/-- C8: the encoding-flag invariant. Opening always returns a handle with at
least one of the two encoding flags set (both, when the caller passed
neither); every lookup, update, delete and sequence call that returns, for
any table content and any outcome, leaves at least one set; hence no series
of calls on a handle created by open ends in the no-flag panic. -/
theorem encoding_flag_invariant (ntn : Bool) (file : Store) (open_flags : Nat)
    (dict_flags : DictFlags) (ops : List Op) :
    ∃ d0, dict_mdb_open file open_flags dict_flags = .ok d0 ∧
      (d0.flags.try1null = true ∨ d0.flags.try0null = true) ∧
      (dict_flags.try1null = false ∧ dict_flags.try0null = false →
        d0.flags.try1null = true ∧ d0.flags.try0null = true) ∧
      run_ops ntn d0 ops ≠ .error .panic_no_flag ∧
      ∀ d1, run_ops ntn d0 ops = .ok d1 →
        (d1.flags.try1null = true ∨ d1.flags.try0null = true) := by
  obtain ⟨d0, ho, h1, h0, -⟩ := open_returns file open_flags dict_flags
  have hflag : d0.flags.try1null = true ∨ d0.flags.try0null = true := by
    rw [h1, h0]
    cases dict_flags.try1null <;> cases dict_flags.try0null <;> simp
  refine ⟨d0, ho, hflag, ?_, run_ops_keeps_flag ntn ops d0 hflag⟩
  rintro ⟨ha, hb⟩
  rw [h1, h0, ha, hb]
  simp

/-- C6 (defect): a handle opened with O_TRUNC over a table of one entry holds the
ambient write transaction 0; its first traversal call returns 0 and leaves a
cursor on the read transaction 1; close then commits transaction 0 and drops
the cursor reference without aborting transaction 1, which stays live. On a
handle without ambient transaction the same traversal followed by close
leaves no live transaction. -/
theorem close_leaks_cursor_txn_in_bulk_mode :
    (dict_mdb_open [([97, 0], [49, 0])] O_TRUNC { noFlags with try1null := true } >>= fun d =>
      dict_mdb_sequence d DICT_SEQ_FUN_FIRST none none >>= fun r =>
      (dict_mdb_close r.2.2.2).map (fun env =>
        (r.1, r.2.2.2.txn.map (fun t => t.id), r.2.2.2.cursor.map (fun c => c.txn.id),
          r.2.2.2.env.live, env.live)))
      = .ok (0, some 0, some 1, [1, 0], [1]) ∧
    (dict_mdb_open [([97, 0], [49, 0])] O_RDWR { noFlags with try1null := true } >>= fun d =>
      dict_mdb_sequence d DICT_SEQ_FUN_FIRST none none >>= fun r =>
      (dict_mdb_close r.2.2.2).map (fun env =>
        (r.1, r.2.2.2.txn.map (fun t => t.id), r.2.2.2.cursor.map (fun c => c.txn.id),
          r.2.2.2.env.live, env.live)))
      = .ok (0, none, some 1, [1], []) :=
  ⟨rfl, rfl⟩

/-- C7 (defect): a handle opened with O_TRUNC over a table that holds 1 under o
works in the ambient write transaction 0; after update of n with 2 the
ambient transaction holds exactly that entry. The traversal started next
begins the read transaction 1 of its own and delivers the committed entry
(o, 1), not the entry (n, 2) written through the handle. -/
theorem sequence_ignores_ambient_txn :
    (dict_mdb_open [([111, 0], [49, 0])] O_TRUNC { noFlags with try1null := true } >>= fun d =>
      dict_mdb_update false d [110] [50] >>= fun u =>
      (dict_mdb_sequence u.2 DICT_SEQ_FUN_FIRST none none).map (fun r =>
        (view u.2, u.2.env.live, r.1, r.2.1, r.2.2.1, r.2.2.2.env.live,
          r.2.2.2.cursor.map (fun c => (c.txn.id, c.txn.data)))))
      = .ok ([([110, 0], [50, 0])], [0], 0, some [111], some [49], [1, 0],
          some (1, [([111, 0], [49, 0])])) :=
  rfl

/-- An update that returns was made through a handle that can write. -/
theorem update_ok_writable (ntn : Bool) (dict : DICT_MDB) (name value : Bytes) (status : Int)
    (d1 : DICT_MDB) (h : dict_mdb_update ntn dict name value = .ok (status, d1)) :
    (dict.flags.try1null = true ∨ dict.flags.try0null = true) ∧ writable dict := by
  by_cases hflag : dict.flags.try1null = true ∨ dict.flags.try0null = true
  · refine ⟨hflag, ?_⟩
    by_contra hw
    rcases update_not_writable ntn dict name value hflag hw with he | he <;>
      rw [he] at h <;> cases h
  · simp only [not_or] at hflag
    rw [update_no_flag ntn dict name value (by simpa using hflag.1) (by simpa using hflag.2)] at h
    cases h

/-- The table after an update that returns: unchanged on a collision,
otherwise with the selected key set to the selected value. -/
theorem update_view (ntn : Bool) (dict : DICT_MDB) (name value : Bytes) (status : Int)
    (d1 : DICT_MDB) (h : dict_mdb_update ntn dict name value = .ok (status, d1)) :
    writable d1 ∧
    (view d1 = if dict.flags.dup_replace = true ∨
        (view dict).get (update_key ntn dict.flags name) = none
      then (view dict).insert (update_key ntn dict.flags name)
        (update_value ntn dict.flags value)
      else view dict) := by
  obtain ⟨hflag, hw⟩ := update_ok_writable ntn dict name value status d1 h
  by_cases hst : dict.flags.dup_replace = true ∨
      (view dict).get (update_key ntn dict.flags name) = none
  · obtain ⟨d, hu, -, hview, htxn, -, hro, -⟩ := update_stored ntn dict name value hflag hw hst
    rw [hu] at h
    cases h
    rw [if_pos hst]
    refine ⟨?_, hview⟩
    unfold writable at hw ⊢
    rw [htxn]
    cases hdt : dict.txn with
    | none => rw [hdt] at hw; simpa [hro] using hw
    | some t => rw [hdt] at hw; simpa using hw
  · rw [if_neg hst]
    simp only [not_or] at hst
    obtain ⟨old, hold⟩ := Option.ne_none_iff_exists'.mp hst.2
    have hrep : dict.flags.dup_replace = false := by simpa using hst.1
    by_cases hpol : dict.flags.dup_ignore = true ∨ dict.flags.dup_warn = true
    · obtain ⟨d, hu, -, hview, htxn, -, -, hro, -⟩ :=
        update_kept ntn dict name value old hflag hw hrep hpol hold
      rw [hu] at h
      cases h
      refine ⟨?_, hview⟩
      unfold writable at hw ⊢
      rw [htxn]
      cases hdt : dict.txn with
      | none => rw [hdt] at hw; simpa [hro] using hw
      | some t => rw [hdt] at hw; simpa using hw
    · simp only [not_or] at hpol
      rw [update_fatal ntn dict name value old hflag hw hrep (by simpa using hpol.1)
        (by simpa using hpol.2) hold] at h
      cases h

theorem Store.insert_perm (s : Store) (k v : Bytes) (h : s.get k = none) :
    (s.insert k v).Perm ((k, v) :: s) := by
  induction s with
  | nil => simp [Store.insert]
  | cons e rest ih =>
    obtain ⟨k1, v1⟩ := e
    by_cases hk : k = k1
    · simp [Store.get, hk] at h
    · have hrest : Store.get rest k = none := by simpa [Store.get, hk] using h
      by_cases hlt : keyLt k k1 = true
      · simp [Store.insert, hk, hlt]
      · simp only [Store.insert, hk, hlt, if_false]
        exact ((ih hrest).cons (k1, v1)).trans (List.Perm.swap _ _ _)

theorem Store.insertAll_get_of_not_mem (es : List (Bytes × Bytes)) :
    ∀ (s : Store) (k : Bytes), k ∉ es.map Prod.fst → (s.insertAll es).get k = s.get k := by
  induction es with
  | nil => intro s k _; rfl
  | cons e rest ih =>
    intro s k hk
    simp only [List.map_cons, List.mem_cons, not_or] at hk
    simp only [Store.insertAll, List.foldl_cons]
    have := ih (s.insert e.1 e.2) k hk.2
    simp only [Store.insertAll] at this
    rw [this]
    exact Store.get_insert_of_ne s e.1 k e.2 hk.1

theorem Store.insertAll_get_of_mem (es : List (Bytes × Bytes)) :
    ∀ (s : Store), (es.map Prod.fst).Nodup → ∀ e ∈ es, (s.insertAll es).get e.1 = some e.2 := by
  induction es with
  | nil => intro s _ e he; cases he
  | cons e0 rest ih =>
    intro s hnd e he
    simp only [List.map_cons, List.nodup_cons] at hnd
    rcases List.mem_cons.mp he with rfl | hin
    · have := Store.insertAll_get_of_not_mem rest (s.insert e.1 e.2) e.1 hnd.1
      simp only [Store.insertAll, List.foldl_cons] at this ⊢
      rw [this]
      exact Store.get_insert_self s e.1 e.2
    · have := ih (s.insert e0.1 e0.2) hnd.2 e hin
      simpa only [Store.insertAll, List.foldl_cons] using this

theorem Store.insertAll_perm (es : List (Bytes × Bytes)) :
    ∀ (s : Store), (es.map Prod.fst).Nodup → (∀ e ∈ es, s.get e.1 = none) →
      (s.insertAll es).Perm (es ++ s) := by
  induction es with
  | nil => intro s _ _; exact List.Perm.refl _
  | cons e0 rest ih =>
    intro s hnd hnew
    simp only [List.map_cons, List.nodup_cons] at hnd
    have hnew' : ∀ e ∈ rest, (s.insert e0.1 e0.2).get e.1 = none := by
      intro e he
      have hne : e.1 ≠ e0.1 := by
        intro heq
        exact hnd.1 (heq ▸ List.mem_map_of_mem Prod.fst he)
      rw [Store.get_insert_of_ne s e0.1 e.1 e0.2 hne]
      exact hnew e (List.mem_cons_of_mem _ he)
    have h1 := ih (s.insert e0.1 e0.2) hnd.2 hnew'
    have h2 := Store.insert_perm s e0.1 e0.2 (hnew e0 (List.mem_cons_self _ _))
    simp only [Store.insertAll, List.foldl_cons] at h1 ⊢
    refine h1.trans ?_
    refine (List.Perm.append_left rest h2).trans ?_
    simp only [List.cons_append]
    exact List.perm_middle

theorem narrow_idem (ntn : Bool) (f : DictFlags) : narrow ntn (narrow ntn f) = narrow ntn f := by
  obtain ⟨dw, di, t0, t1, fx, lk, dr, ff⟩ := f
  cases t1 <;> cases t0 <;> cases ntn <;> simp [narrow]

theorem update_key_congr (ntn : Bool) (f g : DictFlags) (name : Bytes)
    (h : narrow ntn f = narrow ntn g) : update_key ntn f name = update_key ntn g name := by
  have hf : folded f name = folded g name := by
    rw [← folded_narrow ntn f, ← folded_narrow ntn g, h]
  simp only [update_key, h, hf]

theorem update_value_congr (ntn : Bool) (f g : DictFlags) (value : Bytes)
    (h : narrow ntn f = narrow ntn g) : update_value ntn f value = update_value ntn g value := by
  simp only [update_value, h]

/-- A load through an ambient write transaction whose keys are new and
pairwise distinct: every update returns, all of them work on the ambient
transaction, and the environment is left as it was. -/
theorem load_ambient (ntn : Bool) (f0 : DictFlags) (pairs : List (Bytes × Bytes)) :
    ∀ (dict : DICT_MDB) (t : MDB_txn), dict.txn = some t → t.rdonly = false →
      (dict.flags.try1null = true ∨ dict.flags.try0null = true) →
      narrow ntn dict.flags = narrow ntn f0 →
      ((pairs.map (encoded ntn f0)).map Prod.fst).Nodup →
      (∀ e ∈ pairs.map (encoded ntn f0), t.data.get e.1 = none) →
      ∃ d1, run_ops ntn dict (load_ops pairs) = .ok d1 ∧
        d1.txn = some ⟨t.id, false, t.data.insertAll (pairs.map (encoded ntn f0))⟩ ∧
        d1.env = dict.env ∧ d1.cursor = dict.cursor := by
  induction pairs with
  | nil =>
    intro dict t ht hro _ _ _ _
    refine ⟨dict, rfl, ?_, rfl, rfl⟩
    rw [ht]
    obtain ⟨i, r, d⟩ := t
    simp only at hro
    subst hro
    rfl
  | cons p rest ih =>
    intro dict t ht hro hflag hnar hnd hnew
    simp only [List.map_cons, List.nodup_cons] at hnd
    have hk : update_key ntn dict.flags p.1 = (encoded ntn f0 p).1 :=
      update_key_congr ntn dict.flags f0 p.1 hnar
    have hv : update_value ntn dict.flags p.2 = (encoded ntn f0 p).2 :=
      update_value_congr ntn dict.flags f0 p.2 hnar
    have hview : view dict = t.data := by simp [view, ht]
    have hw : writable dict := by simp [writable, ht, hro]
    have hst : dict.flags.dup_replace = true ∨
        (view dict).get (update_key ntn dict.flags p.1) = none := by
      right
      rw [hview, hk]
      exact hnew _ (List.mem_cons_self _ _)
    obtain ⟨d1, hu, hfl, -, htxn, henv, -, -, hcur, -⟩ :=
      update_stored ntn dict p.1 p.2 hflag hw hst
    rw [ht, hview, hk, hv] at htxn
    simp only [Option.map_some'] at htxn
    have hflag1 : d1.flags.try1null = true ∨ d1.flags.try0null = true := by
      rw [hfl]
      by_cases hn : (narrow ntn dict.flags).try1null = true
      · exact Or.inl hn
      · exact Or.inr (narrow_try0null ntn dict.flags hflag (by simpa using hn))
    have hnar1 : narrow ntn d1.flags = narrow ntn f0 := by
      rw [hfl, narrow_idem, hnar]
    have hnew1 : ∀ e ∈ rest.map (encoded ntn f0),
        (MDB_txn.mk t.id t.rdonly (t.data.insert (encoded ntn f0 p).1
          (encoded ntn f0 p).2)).data.get e.1 = none := by
      intro e he
      have hne : e.1 ≠ (encoded ntn f0 p).1 := by
        intro heq
        exact hnd.1 (heq ▸ List.mem_map_of_mem Prod.fst he)
      simp only
      rw [Store.get_insert_of_ne _ _ _ _ hne]
      exact hnew e (List.mem_cons_of_mem _ he)
    obtain ⟨d2, hrun, htxn2, henv2, hcur2⟩ :=
      ih d1 _ htxn hro hflag1 hnar1 hnd.2 hnew1
    refine ⟨d2, ?_, ?_, ?_, ?_⟩
    · simp only [load_ops, List.map_cons, run_ops, apply_op, hu, Except.map]
      exact hrun
    · rw [htxn2]
      simp [Store.insertAll]
    · rw [henv2, henv (by simp [ht])]
    · rw [hcur2, hcur]

/-- Closing a handle in bulk-load mode that has no cursor commits the ambient
transaction and leaves none of the handle's transactions live. -/
theorem close_ambient (dict : DICT_MDB) (t : MDB_txn) (ht : dict.txn = some t)
    (hro : t.rdonly = false) (hc : dict.cursor = none) :
    dict_mdb_close dict =
      .ok (MDB_env.mk dict.env.rdonly t.data (dict.env.live.erase t.id) dict.env.next) := by
  obtain ⟨flags, err, fb, env, txn, cur, kb, vb, w⟩ := dict
  simp only at ht hc
  subst ht hc
  simp [dict_mdb_close, mdb_txn_commit, MDB_SUCCESS, hro]


theorem narrow_try1null_of (ntn : Bool) (f : DictFlags)
    (h : (narrow ntn f).try1null = true) : f.try1null = true := by
  obtain ⟨dw, di, t0, t1, fx, lk, dr, ff⟩ := f
  cases t1 <;> cases t0 <;> cases ntn <;> simp_all [narrow]

theorem narrow_try0null_of (ntn : Bool) (f : DictFlags)
    (h : (narrow ntn f).try0null = true) : f.try0null = true := by
  obtain ⟨dw, di, t0, t1, fx, lk, dr, ff⟩ := f
  cases t1 <;> cases t0 <;> cases ntn <;> simp_all [narrow]

theorem folded_zero_not_mem (f : DictFlags) (name : Bytes) (h : 0 ∉ name) :
    0 ∉ folded f name := by
  unfold folded
  split_ifs
  · exact lowercase_zero_not_mem name h
  · exact h

/-- The keys a load writes, when it settles on the terminator-appended encoding. -/
theorem encoded_keys_with_null (ntn : Bool) (f : DictFlags) (pairs : List (Bytes × Bytes))
    (h : (narrow ntn f).try1null = true) :
    pairs.map (encoded ntn f) = pairs.map (fun p => (folded f p.1 ++ [0], p.2 ++ [0])) := by
  apply List.map_congr_left
  intro p _
  simp [encoded, update_key, update_value, h]

/-- The keys a load writes, when it settles on the bare encoding. -/
theorem encoded_keys_bare (ntn : Bool) (f : DictFlags) (pairs : List (Bytes × Bytes))
    (h : (narrow ntn f).try1null = false) :
    pairs.map (encoded ntn f) = pairs.map (fun p => (folded f p.1, p.2)) := by
  apply List.map_congr_left
  intro p _
  simp [encoded, update_key, update_value, h]

theorem encoded_keys_nodup (ntn : Bool) (f : DictFlags) (pairs : List (Bytes × Bytes))
    (hd : (pairs.map (fun p => folded f p.1)).Nodup) :
    ((pairs.map (encoded ntn f)).map Prod.fst).Nodup := by
  by_cases h : (narrow ntn f).try1null = true
  · rw [encoded_keys_with_null ntn f pairs h, List.map_map]
    have : (Prod.fst ∘ fun p : Bytes × Bytes => (folded f p.1 ++ [0], p.2 ++ [0]))
        = (fun k => k ++ [0]) ∘ (fun p : Bytes × Bytes => folded f p.1) := rfl
    rw [this, ← List.map_map]
    exact hd.map (fun a b hab => List.append_cancel_right hab)
  · rw [encoded_keys_bare ntn f pairs (by simpa using h), List.map_map]
    exact hd


/-- Lookups on a handle that sees exactly what a load wrote into an empty
table: every loaded name gives its value, every other name is not found. -/
theorem lookup_after_load (ntn : Bool) (f : DictFlags) (pairs : List (Bytes × Bytes))
    (r : DICT_MDB)
    (hview : view r = Store.insertAll [] (pairs.map (encoded ntn f)))
    (hr1 : r.flags.try1null = f.try1null) (hr0 : r.flags.try0null = f.try0null)
    (hrf : r.flags.fold_fix = f.fold_fix)
    (hflag : f.try1null = true ∨ f.try0null = true)
    (hd : (pairs.map (fun p => folded f p.1)).Nodup)
    (hkeys : ∀ p ∈ pairs, 0 ∉ p.1) (hvalues : ∀ p ∈ pairs, 0 ∉ p.2) :
    (∀ p ∈ pairs, ∃ r1, dict_mdb_lookup r p.1 = .ok (some p.2, r1)) ∧
    (∀ name, 0 ∉ name → folded f name ∉ pairs.map (fun p => folded f p.1) →
      ∃ r1, dict_mdb_lookup r name = .ok (none, r1)) := by
  have hfold : ∀ name, folded r.flags name = folded f name := by
    intro name
    simp only [folded, hrf]
  have hnd := encoded_keys_nodup ntn f pairs hd
  have hrflag : r.flags.try1null = true ∨ r.flags.try0null = true := by
    rw [hr1, hr0]
    exact hflag
  by_cases hn : (narrow ntn f).try1null = true
  · -- the load wrote the terminator-appended form
    have henc := encoded_keys_with_null ntn f pairs hn
    have ht1 : r.flags.try1null = true := by
      rw [hr1]
      exact narrow_try1null_of ntn f hn
    constructor
    · intro p hp
      have hget : (view r).get (folded r.flags p.1 ++ [0]) = some (p.2 ++ [0]) := by
        rw [hview, hfold]
        have hmem : (folded f p.1 ++ [0], p.2 ++ [0]) ∈ pairs.map (encoded ntn f) := by
          rw [henc]
          exact List.mem_map_of_mem (fun p : Bytes × Bytes => (folded f p.1 ++ [0], p.2 ++ [0])) hp
        exact Store.insertAll_get_of_mem _ [] hnd _ hmem
      obtain ⟨r1, hl, -⟩ := lookup_found1 r p.1 (p.2 ++ [0]) ht1 hget
      rw [SCOPY_append_zero p.2 (hvalues p hp)] at hl
      exact ⟨r1, hl⟩
    · intro name hname hnot
      have hm1 : (view r).get (folded r.flags name ++ [0]) = none := by
        rw [hview, hfold, Store.insertAll_get_of_not_mem]
        · rfl
        · rw [henc, List.map_map]
          intro hmem
          obtain ⟨p, hp, heq⟩ := List.mem_map.mp hmem
          simp only [Function.comp] at heq
          exact hnot (List.mem_map.mpr ⟨p, hp, List.append_cancel_right heq⟩)
      have hm0 : (view r).get (folded r.flags name) = none := by
        rw [hview, hfold, Store.insertAll_get_of_not_mem]
        · rfl
        · rw [henc, List.map_map]
          intro hmem
          obtain ⟨p, hp, heq⟩ := List.mem_map.mp hmem
          simp only [Function.comp] at heq
          apply folded_zero_not_mem f name hname
          rw [← heq]
          simp
      obtain ⟨r1, hl, -⟩ := lookup_missing r name hrflag (Or.inr hm1) (Or.inr hm0)
      exact ⟨r1, hl⟩
  · -- the load wrote the bare form
    have hn1 : (narrow ntn f).try1null = false := by simpa using hn
    have henc := encoded_keys_bare ntn f pairs hn1
    have ht0 : r.flags.try0null = true := by
      rw [hr0]
      exact narrow_try0null_of ntn f (narrow_try0null ntn f hflag hn1)
    have hnull : ∀ name, (view r).get (folded r.flags name ++ [0]) = none := by
      intro name
      rw [hview, hfold, Store.insertAll_get_of_not_mem]
      · rfl
      · rw [henc, List.map_map]
        intro hmem
        obtain ⟨p, hp, heq⟩ := List.mem_map.mp hmem
        simp only [Function.comp] at heq
        apply folded_zero_not_mem f p.1 (hkeys p hp)
        rw [heq]
        simp
    constructor
    · intro p hp
      have hget : (view r).get (folded r.flags p.1) = some p.2 := by
        rw [hview, hfold]
        have hmem : (folded f p.1, p.2) ∈ pairs.map (encoded ntn f) := by
          rw [henc]
          exact List.mem_map_of_mem (fun p : Bytes × Bytes => (folded f p.1, p.2)) hp
        exact Store.insertAll_get_of_mem _ [] hnd _ hmem
      obtain ⟨r1, hl, -⟩ := lookup_found0 r p.1 p.2 ht0 (Or.inr (hnull p.1)) hget
      rw [SCOPY_of_not_mem p.2 (hvalues p hp)] at hl
      exact ⟨r1, hl⟩
    · intro name _ hnot
      have hm0 : (view r).get (folded r.flags name) = none := by
        rw [hview, hfold, Store.insertAll_get_of_not_mem]
        · rfl
        · rw [henc, List.map_map]
          exact hnot
      obtain ⟨r1, hl, -⟩ := lookup_missing r name hrflag (Or.inr (hnull name)) (Or.inr hm0)
      exact ⟨r1, hl⟩


/-- C10: bulk-load mode. For every prior table content: opening with O_TRUNC,
making one update per pair of a list of M pairs whose keys are pairwise
distinct (after folding when folding is on) and closing returns at every
step; before the close the committed table is still the prior one; after it
no transaction is live and the committed table consists of exactly the M
entries written, none of the prior data. A handle reopened read-only with the
same flags finds every loaded value under its name, finds nothing under any
other name, and a full traversal makes exactly M successful steps, one per
entry, before it reports end-of-sequence. -/
theorem bulk_load_commits_exactly (ntn : Bool) (prior : Store) (open_flags : Nat)
    (dict_flags : DictFlags) (pairs : List (Bytes × Bytes))
    (htrunc : open_flags &&& O_TRUNC ≠ 0)
    (hdistinct : (pairs.map (fun p => folded dict_flags p.1)).Nodup)
    (hkeys : ∀ p ∈ pairs, 0 ∉ p.1) (hvalues : ∀ p ∈ pairs, 0 ∉ p.2) :
    ∃ d0 d1 env r,
      dict_mdb_open prior open_flags dict_flags = .ok d0 ∧
      run_ops ntn d0 (load_ops pairs) = .ok d1 ∧
      d1.env.store = prior ∧
      dict_mdb_close d1 = .ok env ∧
      env.live = [] ∧
      env.store.Perm (pairs.map (encoded ntn d0.flags)) ∧
      env.store.length = pairs.length ∧
      dict_mdb_open env.store O_RDONLY dict_flags = .ok r ∧
      r.env.rdonly = true ∧
      (∀ p ∈ pairs, ∃ r1, dict_mdb_lookup r p.1 = .ok (some p.2, r1)) ∧
      (∀ name, 0 ∉ name → folded dict_flags name ∉ pairs.map (fun p => folded dict_flags p.1) →
        ∃ r1, dict_mdb_lookup r name = .ok (none, r1)) ∧
      (∀ fuel, pairs.length < fuel →
        ∃ rs r1, sequence_all fuel r DICT_SEQ_FUN_FIRST none none = some (.ok (rs, 1, r1)) ∧
          rs.length = pairs.length ∧ List.Forall₂ delivered env.store rs) := by
  obtain ⟨d0, hopen, h1, h0, hff, -, -, -, hcur, hstore, -, -, htxn, hlive⟩ :=
    open_returns prior open_flags dict_flags
  rw [if_pos htrunc] at htxn hlive
  have hflag : d0.flags.try1null = true ∨ d0.flags.try0null = true := by
    rw [h1, h0]
    cases dict_flags.try1null <;> cases dict_flags.try0null <;> simp
  have hfold : ∀ name, folded d0.flags name = folded dict_flags name := by
    intro name
    simp only [folded, hff]
  have hd0 : (pairs.map (fun p => folded d0.flags p.1)).Nodup := by
    simpa only [hfold] using hdistinct
  have hnd := encoded_keys_nodup ntn d0.flags pairs hd0
  obtain ⟨d1, hrun, htxn1, henv1, hcur1⟩ :=
    load_ambient ntn d0.flags pairs d0 ⟨0, false, []⟩ htxn rfl hflag rfl hnd (fun _ _ => rfl)
  have hclose := close_ambient d1 _ htxn1 rfl (by rw [hcur1, hcur])
  have hperm := Store.insertAll_perm (pairs.map (encoded ntn d0.flags)) [] hnd (fun _ _ => rfl)
  rw [List.append_nil] at hperm
  obtain ⟨r, hropen, hr1, hr0, hrff, -, -, -, hrcur, hrstore, -, hrro, hrtxn, -⟩ :=
    open_returns (Store.insertAll [] (pairs.map (encoded ntn d0.flags))) O_RDONLY dict_flags
  have hrt : r.txn = none := by
    rw [hrtxn]
    simp [O_RDONLY]
  have hrview : view r = Store.insertAll [] (pairs.map (encoded ntn d0.flags)) := by
    simp only [view, hrt, hrstore]
  obtain ⟨hhit, hmiss⟩ := lookup_after_load ntn d0.flags pairs r hrview
    (by rw [hr1, h1]) (by rw [hr0, h0]) (by rw [hrff, hff]) hflag hd0 hkeys hvalues
  have hlen : (Store.insertAll [] (pairs.map (encoded ntn d0.flags))).length = pairs.length := by
    rw [hperm.length_eq, List.length_map]
  refine ⟨d0, d1, _, r, hopen, hrun, by rw [henv1, hstore], hclose, ?_, hperm, hlen,
    hropen, by simp [hrro], hhit, ?_, ?_⟩
  · simp only [henv1, hlive]
    simp
  · intro name hname hnot
    exact hmiss name hname (by simpa only [hfold] using hnot)
  · intro fuel hfuel
    obtain ⟨rs, r1, hq, hall, -⟩ :=
      sequence_all_from_idle r fuel DICT_SEQ_FUN_FIRST none none (Or.inl rfl) hrcur
        (by rw [hrstore, hlen]; exact hfuel)
    rw [hrstore] at hall
    exact ⟨rs, r1, hq, by rw [← hall.length_eq, hlen], hall⟩


/-- Instance of C10: a load of two pairs over a prior table of one entry. -/
theorem bulk_load_commits_exactly_witness :
    ∃ d0 d1 env r,
      dict_mdb_open [([122, 0], [57, 0])] O_TRUNC noFlags = .ok d0 ∧
      run_ops false d0 (load_ops [([98], [50]), ([97], [49])]) = .ok d1 ∧
      d1.env.store = [([122, 0], [57, 0])] ∧
      dict_mdb_close d1 = .ok env ∧
      env.live = [] ∧
      env.store.Perm ([([98], [50]), ([97], [49])].map (encoded false d0.flags)) ∧
      env.store.length = 2 ∧
      dict_mdb_open env.store O_RDONLY noFlags = .ok r ∧
      r.env.rdonly = true ∧
      (∀ p ∈ [(([98] : Bytes), ([50] : Bytes)), ([97], [49])],
        ∃ r1, dict_mdb_lookup r p.1 = .ok (some p.2, r1)) ∧
      (∀ name, 0 ∉ name →
        folded noFlags name ∉ [(([98] : Bytes), ([50] : Bytes)), ([97], [49])].map
          (fun p => folded noFlags p.1) →
        ∃ r1, dict_mdb_lookup r name = .ok (none, r1)) ∧
      (∀ fuel, 2 < fuel →
        ∃ rs r1, sequence_all fuel r DICT_SEQ_FUN_FIRST none none = some (.ok (rs, 1, r1)) ∧
          rs.length = 2 ∧ List.Forall₂ delivered env.store rs) :=
  bulk_load_commits_exactly false [([122, 0], [57, 0])] O_TRUNC noFlags
    [([98], [50]), ([97], [49])] (by decide) (by decide) (by decide) (by decide)

/-- C11: idempotence of a missing lookup. For every handle with at least one
encoding flag set and every key that is present in none of the handle's
enabled encodings, lookup returns not found and leaves the table the handle
works on, the committed table, the flags, the ambient transaction, the cursor
and the set of live transactions unchanged; a second lookup of the same key
returns not found again. -/
theorem lookup_missing_idempotent (dict : DICT_MDB) (name : Bytes)
    (hflag : dict.flags.try1null = true ∨ dict.flags.try0null = true)
    (hmiss1 : dict.flags.try1null = false ∨
      (view dict).get (folded dict.flags name ++ [0]) = none)
    (hmiss0 : dict.flags.try0null = false ∨
      (view dict).get (folded dict.flags name) = none) :
    ∃ d1 d2, dict_mdb_lookup dict name = .ok (none, d1) ∧
      view d1 = view dict ∧ d1.env.store = dict.env.store ∧ d1.flags = dict.flags ∧
      d1.txn = dict.txn ∧ d1.cursor = dict.cursor ∧ d1.env.live = dict.env.live ∧
      dict_mdb_lookup d1 name = .ok (none, d2) ∧
      view d2 = view dict ∧ d2.env.store = dict.env.store ∧ d2.flags = dict.flags ∧
      d2.txn = dict.txn ∧ d2.cursor = dict.cursor ∧ d2.env.live = dict.env.live := by
  obtain ⟨d1, hl1, hfl1, hv1, ht1, hc1, hs1, hlv1, -⟩ :=
    lookup_missing dict name hflag hmiss1 hmiss0
  obtain ⟨d2, hl2, hfl2, hv2, ht2, hc2, hs2, hlv2, -⟩ :=
    lookup_missing d1 name (by rw [hfl1]; exact hflag)
      (by rw [hfl1, hv1]; exact hmiss1) (by rw [hfl1, hv1]; exact hmiss0)
  exact ⟨d1, d2, hl1, hv1, hs1, hfl1, ht1, hc1, hlv1, hl2, by rw [hv2, hv1],
    by rw [hs2, hs1], by rw [hfl2, hfl1], by rw [ht2, ht1], by rw [hc2, hc1],
    by rw [hlv2, hlv1]⟩

/-- Instance of C11: the key b is looked up in a table that holds only a. -/
theorem lookup_missing_idempotent_witness :
    ∃ d1 d2,
      dict_mdb_lookup
        (idleHandle { noFlags with try1null := true, try0null := true } [([97, 0], [49, 0])])
        [98] = .ok (none, d1) ∧
      view d1 = [([97, 0], [49, 0])] ∧ d1.env.store = [([97, 0], [49, 0])] ∧
      d1.flags = { noFlags with try1null := true, try0null := true } ∧
      d1.txn = none ∧ d1.cursor = none ∧ d1.env.live = [] ∧
      dict_mdb_lookup d1 [98] = .ok (none, d2) ∧
      view d2 = [([97, 0], [49, 0])] ∧ d2.env.store = [([97, 0], [49, 0])] ∧
      d2.flags = { noFlags with try1null := true, try0null := true } ∧
      d2.txn = none ∧ d2.cursor = none ∧ d2.env.live = [] :=
  lookup_missing_idempotent
    (idleHandle { noFlags with try1null := true, try0null := true } [([97, 0], [49, 0])])
    [98] (by decide) (Or.inr rfl) (Or.inr rfl)

/-- C12: under policy ignore (ignore set, replace clear), an update of a key
that already exists in the selected encoding returns without terminating the
process, emits no warning, and leaves the stored value and the whole table
unchanged, with an ambient transaction and with a private one; the lookup
that follows returns the original value (up to its first zero byte). -/
theorem update_ignore_keeps_store (ntn : Bool) (dict : DICT_MDB) (name value old : Bytes)
    (hflag : dict.flags.try1null = true ∨ dict.flags.try0null = true)
    (hw : writable dict)
    (hign : dict.flags.dup_ignore = true)
    (hrep : dict.flags.dup_replace = false)
    (hget : (view dict).get (update_key ntn dict.flags name) = some old) :
    ∃ status d1 d2, dict_mdb_update ntn dict name value = .ok (status, d1) ∧
      view d1 = view dict ∧ d1.env.store = dict.env.store ∧
      (view d1).get (update_key ntn dict.flags name) = some old ∧
      d1.warnings = dict.warnings ∧
      dict_mdb_lookup d1 name = .ok (some (SCOPY old), d2) := by
  obtain ⟨d1, hu, hfl, hview, -, -, hstore, -, -, -, hwn⟩ :=
    update_kept ntn dict name value old hflag hw hrep (Or.inl hign) hget
  have hfold : folded d1.flags name = folded dict.flags name := by
    rw [hfl, folded_narrow]
  rw [hign] at hwn
  by_cases hn : (narrow ntn dict.flags).try1null = true
  · have hget1 : (view d1).get (folded d1.flags name ++ [0]) = some old := by
      rw [hview, hfold]
      simpa only [update_key, hn, if_true] using hget
    obtain ⟨d2, hl, -⟩ := lookup_found1 d1 name old (by rw [hfl]; exact hn) hget1
    exact ⟨_, d1, d2, hu, hview, hstore, by rw [hview]; exact hget, by simpa using hwn, hl⟩
  · have hn1 : (narrow ntn dict.flags).try1null = false := by simpa using hn
    have hn0 := narrow_try0null ntn dict.flags hflag hn1
    have hget0 : (view d1).get (folded d1.flags name) = some old := by
      rw [hview, hfold]
      simpa [update_key, hn1] using hget
    obtain ⟨d2, hl, -⟩ := lookup_found0 d1 name old (by rw [hfl]; exact hn0)
      (Or.inl (by rw [hfl]; exact hn1)) hget0
    exact ⟨_, d1, d2, hu, hview, hstore, by rw [hview]; exact hget, by simpa using hwn, hl⟩

/-- Instance of C12: policy ignore, the table holds 1 under a, update of a with 2. -/
theorem update_ignore_keeps_store_witness :
    ∃ status d1 d2,
      dict_mdb_update false
        (idleHandle { noFlags with dup_ignore := true, try1null := true }
          [([97, 0], [49, 0])]) [97] [50] = .ok (status, d1) ∧
      view d1 = [([97, 0], [49, 0])] ∧ d1.env.store = [([97, 0], [49, 0])] ∧
      (view d1).get [97, 0] = some [49, 0] ∧
      d1.warnings = [] ∧
      dict_mdb_lookup d1 [97] = .ok (some [49], d2) :=
  update_ignore_keeps_store false
    (idleHandle { noFlags with dup_ignore := true, try1null := true } [([97, 0], [49, 0])])
    [97] [50] [49, 0] (by decide) (by simp [writable, idleHandle]) rfl rfl rfl

/-- The only way an update ends in the duplicate-entry fatal error. -/
theorem update_fatal_duplicate_only (ntn : Bool) (dict : DICT_MDB) (name value n : Bytes)
    (h : dict_mdb_update ntn dict name value = .error (.fatal_duplicate n)) :
    (∃ old, (view dict).get (update_key ntn dict.flags name) = some old) ∧
    dict.flags.dup_replace = false ∧ dict.flags.dup_ignore = false ∧
    dict.flags.dup_warn = false := by
  by_cases hflag : dict.flags.try1null = true ∨ dict.flags.try0null = true
  · by_cases hw : writable dict
    · by_cases hst : dict.flags.dup_replace = true ∨
          (view dict).get (update_key ntn dict.flags name) = none
      · obtain ⟨d, hu, -⟩ := update_stored ntn dict name value hflag hw hst
        rw [hu] at h
        cases h
      · simp only [not_or] at hst
        obtain ⟨old, hold⟩ := Option.ne_none_iff_exists'.mp hst.2
        have hrep : dict.flags.dup_replace = false := by simpa using hst.1
        by_cases hpol : dict.flags.dup_ignore = true ∨ dict.flags.dup_warn = true
        · obtain ⟨d, hu, -⟩ := update_kept ntn dict name value old hflag hw hrep hpol hold
          rw [hu] at h
          cases h
        · simp only [not_or] at hpol
          exact ⟨⟨old, hold⟩, hrep, by simpa using hpol.1, by simpa using hpol.2⟩
    · rcases update_not_writable ntn dict name value hflag hw with he | he <;>
        rw [he] at h <;> cases h
  · simp only [not_or] at hflag
    rw [update_no_flag ntn dict name value (by simpa using hflag.1) (by simpa using hflag.2)] at h
    cases h

/-- C13: the fatal duplicate policy. On a handle with an encoding flag set that
can write, update terminates with the duplicate-entry fatal error if and only
if the key already exists in the encoding it writes and none of the replace,
ignore and warn flags is set (the error names the folded key); with replace
set no collision occurs and the pair is stored; when ignore and warn are both
set the collision is ignored without a warning and the table is unchanged. -/
theorem update_fatal_duplicate_iff (ntn : Bool) (dict : DICT_MDB) (name value : Bytes)
    (hflag : dict.flags.try1null = true ∨ dict.flags.try0null = true)
    (hw : writable dict) :
    ((∃ n, dict_mdb_update ntn dict name value = .error (.fatal_duplicate n)) ↔
      ((∃ old, (view dict).get (update_key ntn dict.flags name) = some old) ∧
       dict.flags.dup_replace = false ∧ dict.flags.dup_ignore = false ∧
       dict.flags.dup_warn = false)) ∧
    (∀ n, dict_mdb_update ntn dict name value = .error (.fatal_duplicate n) →
      n = folded dict.flags name) ∧
    (dict.flags.dup_replace = true →
      ∃ d1, dict_mdb_update ntn dict name value = .ok (0, d1) ∧
        (view d1).get (update_key ntn dict.flags name)
          = some (update_value ntn dict.flags value)) ∧
    (dict.flags.dup_replace = false → dict.flags.dup_ignore = true →
      dict.flags.dup_warn = true →
      (∃ old, (view dict).get (update_key ntn dict.flags name) = some old) →
      ∃ status d1, dict_mdb_update ntn dict name value = .ok (status, d1) ∧
        view d1 = view dict ∧ d1.warnings = dict.warnings) := by
  refine ⟨⟨?_, ?_⟩, ?_, ?_, ?_⟩
  · rintro ⟨n, hn⟩
    exact update_fatal_duplicate_only ntn dict name value n hn
  · rintro ⟨⟨old, hold⟩, hrep, hign, hwarn⟩
    exact ⟨_, update_fatal ntn dict name value old hflag hw hrep hign hwarn hold⟩
  · intro n hn
    obtain ⟨⟨old, hold⟩, hrep, hign, hwarn⟩ :=
      update_fatal_duplicate_only ntn dict name value n hn
    rw [update_fatal ntn dict name value old hflag hw hrep hign hwarn hold] at hn
    cases hn
    rfl
  · intro hrep
    obtain ⟨d1, hu, -, hview, -⟩ := update_stored ntn dict name value hflag hw (Or.inl hrep)
    refine ⟨d1, hu, ?_⟩
    rw [hview]
    exact Store.get_insert_self _ _ _
  · rintro hrep hign - ⟨old, hold⟩
    obtain ⟨d1, hu, -, hview, -, -, -, -, -, -, hwn⟩ :=
      update_kept ntn dict name value old hflag hw hrep (Or.inl hign) hold
    rw [hign] at hwn
    exact ⟨_, d1, hu, hview, by simpa using hwn⟩

/-- Instance of C13: no policy flag set, the table holds 1 under a, update of a. -/
theorem update_fatal_duplicate_iff_witness :
    ∃ n, dict_mdb_update false
        (idleHandle { noFlags with try1null := true } [([97, 0], [49, 0])]) [97] [50]
      = .error (.fatal_duplicate n) :=
  (update_fatal_duplicate_iff false
      (idleHandle { noFlags with try1null := true } [([97, 0], [49, 0])]) [97] [50]
      (by decide) (by simp [writable, idleHandle])).1.2
    ⟨⟨[49, 0], rfl⟩, rfl, rfl, rfl⟩

theorem lowercase_idem (s : Bytes) : lowercase (lowercase s) = lowercase s := by
  simp only [lowercase, List.map_map]
  apply List.map_congr_left
  intro c _
  simp only [Function.comp]
  by_cases h : 65 ≤ c ∧ c ≤ 90
  · have h2 : ¬ (65 ≤ c + 32 ∧ c + 32 ≤ 90) := by omega
    rw [if_pos h, if_neg h2]
  · rw [if_neg h, if_neg h]

/-- With folding on, the three keyed operations see a name only through its
lower-case form. -/
theorem fold_congr (ntn : Bool) (dict : DICT_MDB) (k k' value : Bytes)
    (hfold : dict.flags.fold_fix = true) (hk : lowercase k = lowercase k') :
    dict_mdb_lookup dict k = dict_mdb_lookup dict k' ∧
    dict_mdb_update ntn dict k value = dict_mdb_update ntn dict k' value ∧
    dict_mdb_delete dict k = dict_mdb_delete dict k' := by
  have hlen : k.length = k'.length := by
    rw [← lowercase_length k, hk, lowercase_length]
  refine ⟨?_, ?_, ?_⟩
  · simp only [dict_mdb_lookup, hfold, ↓reduceIte, hk, hlen]
  · simp only [dict_mdb_update, hfold, ↓reduceIte, hk, hlen]
  · simp only [dict_mdb_delete, hfold, ↓reduceIte, hk, hlen]

theorem wrap_int_of_range (x : Int) (h1 : -2147483648 ≤ x) (h2 : x ≤ 2147483647) :
    wrap_int x = x := by
  unfold wrap_int
  omega

theorem to_unsigned_of_nonneg (x : Int) (h1 : 0 ≤ x) (h2 : x < 4294967296) :
    ((to_unsigned x : Nat) : Int) = x := by
  unfold to_unsigned
  rw [Int.toNat_of_nonneg (by omega)]
  omega

/-- C16 (as stated, refuted): the process limit 2147483647 is an `int` that the
configuration table admits (minimum 1, no maximum); twice that limit is
beyond the range of `int`, the arithmetic wraps, and the reader limit comes
out as 14, not as 2 * 2147483647 + 16. -/
theorem max_readers_wraps :
    (1 : Int) ≤ 2147483647 ∧
    wrap_int (2147483647 * 2) = -2 ∧
    wrap_int (2147483647 * 2) ≠ 2147483647 * 2 ∧
    (mkmap_mdb_open 2147483647 10485760).dict_mdb_max_readers = 14 ∧
    (((mkmap_mdb_open 2147483647 10485760).dict_mdb_max_readers : Nat) : Int)
      ≠ 2 * 2147483647 + 16 := by
  refine ⟨by decide, by decide, by decide, by decide, by decide⟩

/-- C16 (amended): for every configured process limit L with
1 <= L <= 1073741815, mkmap_mdb_open sets dict_mdb_max_readers to exactly
2 * L + 16: neither the multiplication nor the addition leaves the range of
`int`, and the conversion to `unsigned int` keeps the value; this value is
the one dict_mdb_open passes to mdb_env_set_maxreaders; the compiled-in
default 216 equals the formula at L = 100. -/
theorem max_readers_formula (L : Int) (map_size : Nat) (h1 : 1 ≤ L) (h2 : L ≤ 1073741815) :
    wrap_int (L * 2) = L * 2 ∧
    wrap_int (wrap_int (L * 2) + 16) = L * 2 + 16 ∧
    (((mkmap_mdb_open L map_size).dict_mdb_max_readers : Nat) : Int) = 2 * L + 16 ∧
    (dict_mdb_open_capacity (mkmap_mdb_open L map_size)).2
      = (mkmap_mdb_open L map_size).dict_mdb_max_readers ∧
    default_tunables.dict_mdb_max_readers
      = (mkmap_mdb_open 100 map_size).dict_mdb_max_readers := by
  have hm : wrap_int (L * 2) = L * 2 := wrap_int_of_range _ (by omega) (by omega)
  have ha : wrap_int (wrap_int (L * 2) + 16) = L * 2 + 16 := by
    rw [hm]
    exact wrap_int_of_range _ (by omega) (by omega)
  refine ⟨hm, ha, ?_, rfl, rfl⟩
  simp only [mkmap_mdb_open, ha]
  rw [to_unsigned_of_nonneg _ (by omega) (by omega)]
  ring

/-- Instance of C16 (amended): the default process limit 100. -/
theorem max_readers_formula_witness :
    wrap_int (100 * 2) = 100 * 2 ∧
    wrap_int (wrap_int (100 * 2) + 16) = 100 * 2 + 16 ∧
    (((mkmap_mdb_open 100 10485760).dict_mdb_max_readers : Nat) : Int) = 2 * 100 + 16 ∧
    (dict_mdb_open_capacity (mkmap_mdb_open 100 10485760)).2
      = (mkmap_mdb_open 100 10485760).dict_mdb_max_readers ∧
    default_tunables.dict_mdb_max_readers
      = (mkmap_mdb_open 100 10485760).dict_mdb_max_readers :=
  max_readers_formula 100 10485760 (by decide) (by decide)

/-- C18 (defect): an empty value is stored by update of k with the empty string
on a handle that writes the bare form. A traversal call positioned on such an
entry returns 0 and assigns the key, but leaves the value output as the
caller had it (here x); in a full traversal over the entries (a, 1) and
(b, empty) the step for b returns 0 with the value 1 of the step before. -/
theorem sequence_leaves_value_for_empty_entry :
    (dict_mdb_open [] O_RDWR { noFlags with try0null := true } >>= fun d =>
      dict_mdb_update false d [107] []).map (fun r => r.2.env.store)
      = .ok [([107], [])] ∧
    (dict_mdb_open [([107], [])] O_RDONLY { noFlags with try0null := true } >>= fun d =>
      dict_mdb_sequence d DICT_SEQ_FUN_FIRST none (some [120])).map
        (fun r => (r.1, r.2.1, r.2.2.1))
      = .ok (0, some [107], some [120]) ∧
    (match dict_mdb_open [([97], [49]), ([98], [])] O_RDONLY
        { noFlags with try0null := true } with
      | .ok d => (sequence_all 3 d DICT_SEQ_FUN_FIRST none none).map
                   (Except.map (fun r => (r.1, r.2.1)))
      | .error _ => none)
      = some (.ok ([(some [97], some [49]), (some [98], some [49])], 1)) :=
  ⟨rfl, rfl, rfl⟩

/-- The environment after a lookup that returns. -/
theorem lookup_env (dict : DICT_MDB) (name : Bytes) (r : Option Bytes) (d1 : DICT_MDB)
    (h : dict_mdb_lookup dict name = .ok (r, d1)) :
    d1.txn = dict.txn ∧ d1.cursor = dict.cursor ∧ d1.warnings = dict.warnings ∧
    d1.env.store = dict.env.store ∧ d1.env.live = dict.env.live ∧
    d1.env.rdonly = dict.env.rdonly ∧
    d1.env.next = dict.env.next + (if dict.txn.isSome then 0 else 1) := by
  rcases hg1 : (view dict).get (folded dict.flags name ++ [0]) with _ | v1 <;>
  rcases hg0 : (view dict).get (folded dict.flags name) with _ | v0 <;>
  obtain ⟨flags, err, fb, env, txn, cur, kb, vb, w⟩ := dict <;>
  obtain ⟨dw, di, t0, t1, fx, lk, dr, ff⟩ := flags <;>
  obtain ⟨ro, st, lv, nx⟩ := env <;>
  rcases txn with _ | ⟨ti, tro, td⟩ <;>
  cases t1 <;> cases t0 <;> cases ff <;>
    simp [view, folded] at hg1 hg0 <;>
    simp [dict_mdb_lookup, mdb_txn_begin, mdb_get, mdb_txn_abort, cmem_succ, cmem_length,
      cmem_lowercase_succ, cmem_lowercase_length, MDB_SUCCESS, MDB_NOTFOUND,
      hg1, hg0] at h <;>
    (obtain ⟨-, rfl⟩ := h) <;> simp


/-- The transaction counter after an update that stores. -/
theorem update_stored_next (ntn : Bool) (dict : DICT_MDB) (name value : Bytes)
    (hflag : dict.flags.try1null = true ∨ dict.flags.try0null = true)
    (hw : writable dict)
    (hst : dict.flags.dup_replace = true ∨
      (view dict).get (update_key ntn dict.flags name) = none) :
    ∃ d1, dict_mdb_update ntn dict name value = .ok (0, d1) ∧
      d1.env.next = dict.env.next + (if dict.txn.isSome then 0 else 1) ∧
      d1.env.store = (if dict.txn.isSome then dict.env.store else view d1) := by
  obtain ⟨flags, err, fb, env, txn, cur, kb, vb, w⟩ := dict
  obtain ⟨dw, di, t0, t1, fx, lk, dr, ff⟩ := flags
  obtain ⟨ro, st, lv, nx⟩ := env
  rcases hst with hst | hst <;>
  rcases txn with _ | ⟨ti, tro, td⟩ <;>
  cases t1 <;> cases t0 <;> cases ff <;> cases ntn <;>
    simp [writable, view, update_key, update_value, narrow, folded] at hflag hw hst <;>
    simp [dict_mdb_update, mdb_txn_begin, mdb_put, mdb_txn_commit, view, update_key,
      update_value, cmem_succ, cmem_length, MDB_SUCCESS, narrow, folded, hw, hst]

/-- The transaction counter after an update that collides and returns. -/
theorem update_kept_next (ntn : Bool) (dict : DICT_MDB) (name value old : Bytes)
    (hflag : dict.flags.try1null = true ∨ dict.flags.try0null = true)
    (hw : writable dict)
    (hrep : dict.flags.dup_replace = false)
    (hpol : dict.flags.dup_ignore = true ∨ dict.flags.dup_warn = true)
    (hget : (view dict).get (update_key ntn dict.flags name) = some old) :
    ∃ d1, dict_mdb_update ntn dict name value
        = .ok ((if dict.txn.isSome then MDB_KEYEXIST else 0), d1) ∧
      d1.env.next = dict.env.next + (if dict.txn.isSome then 0 else 1) := by
  obtain ⟨flags, err, fb, env, txn, cur, kb, vb, w⟩ := dict
  obtain ⟨dw, di, t0, t1, fx, lk, dr, ff⟩ := flags
  obtain ⟨ro, st, lv, nx⟩ := env
  simp only at hrep
  subst hrep
  rcases hpol with hpol | hpol <;>
  rcases txn with _ | ⟨ti, tro, td⟩ <;>
  cases t1 <;> cases t0 <;> cases ff <;> cases ntn <;> cases di <;>
    simp [writable, view, update_key, update_value, narrow, folded] at hflag hw hget hpol <;>
    simp [dict_mdb_update, mdb_txn_begin, mdb_put, mdb_txn_commit, view, update_key,
      update_value, cmem_succ, cmem_length, MDB_SUCCESS, MDB_KEYEXIST, narrow, folded,
      hw, hget, hpol]

/-- The environment and the handle's transaction after an update that returns. -/
theorem update_env (ntn : Bool) (dict : DICT_MDB) (name value : Bytes) (status : Int)
    (d1 : DICT_MDB) (h : dict_mdb_update ntn dict name value = .ok (status, d1)) :
    d1.txn.map (fun t => t.id) = dict.txn.map (fun t => t.id) ∧
    d1.cursor = dict.cursor ∧
    (dict.txn.isSome = true → d1.env = dict.env) ∧
    d1.env.live = dict.env.live ∧ d1.env.rdonly = dict.env.rdonly ∧
    d1.env.next = dict.env.next + (if dict.txn.isSome then 0 else 1) := by
  obtain ⟨hflag, hw⟩ := update_ok_writable ntn dict name value status d1 h
  by_cases hst : dict.flags.dup_replace = true ∨
      (view dict).get (update_key ntn dict.flags name) = none
  · obtain ⟨d, hu, -, -, htxn, henv, hro, hlive, hcur, -⟩ :=
      update_stored ntn dict name value hflag hw hst
    obtain ⟨d', hu', hnext, -⟩ := update_stored_next ntn dict name value hflag hw hst
    rw [hu] at hu' h
    cases hu'
    cases h
    refine ⟨?_, hcur, henv, hlive, hro, hnext⟩
    rw [htxn]
    cases dict.txn <;> rfl
  · simp only [not_or] at hst
    obtain ⟨old, hold⟩ := Option.ne_none_iff_exists'.mp hst.2
    have hrep : dict.flags.dup_replace = false := by simpa using hst.1
    by_cases hpol : dict.flags.dup_ignore = true ∨ dict.flags.dup_warn = true
    · obtain ⟨d, hu, -, -, htxn, henv, -, hro, hlive, hcur, -⟩ :=
        update_kept ntn dict name value old hflag hw hrep hpol hold
      obtain ⟨d', hu', hnext⟩ := update_kept_next ntn dict name value old hflag hw hrep hpol hold
      rw [hu] at hu' h
      cases hu'
      cases h
      exact ⟨by rw [htxn], hcur, henv, hlive, hro, hnext⟩
    · simp only [not_or] at hpol
      rw [update_fatal ntn dict name value old hflag hw hrep (by simpa using hpol.1)
        (by simpa using hpol.2) hold] at h
      cases h

/-- The environment and the handle's transaction after a delete that returns. -/
theorem delete_env (dict : DICT_MDB) (name : Bytes) (status : Int) (d1 : DICT_MDB)
    (h : dict_mdb_delete dict name = .ok (status, d1)) :
    d1.txn.map (fun t => t.id) = dict.txn.map (fun t => t.id) ∧
    d1.cursor = dict.cursor ∧ d1.warnings = dict.warnings ∧
    (dict.txn.isSome = true → d1.env = dict.env) ∧
    d1.env.live = dict.env.live ∧ d1.env.rdonly = dict.env.rdonly ∧
    d1.env.next = dict.env.next + (if dict.txn.isSome then 0 else 1) ∧
    (dict.txn = none → d1.env.store = view d1) := by
  rcases hg1 : (view dict).get (folded dict.flags name ++ [0]) with _ | v1 <;>
  rcases hg0 : (view dict).get (folded dict.flags name) with _ | v0 <;>
  obtain ⟨flags, err, fb, env, txn, cur, kb, vb, w⟩ := dict <;>
  obtain ⟨dw, di, t0, t1, fx, lk, dr, ff⟩ := flags <;>
  obtain ⟨ro, st, lv, nx⟩ := env <;>
  rcases txn with _ | ⟨ti, tro, td⟩ <;>
  cases t1 <;> cases t0 <;> cases ff <;> (first | cases tro | cases ro) <;>
    simp [view, folded] at hg1 hg0 <;>
    simp [dict_mdb_delete, mdb_txn_begin, mdb_del, mdb_txn_commit, cmem_succ, cmem_length,
      cmem_lowercase_succ, cmem_lowercase_length, MDB_SUCCESS, MDB_NOTFOUND, EACCES,
      hg1, hg0] at h <;>
    (obtain ⟨-, rfl⟩ := h) <;> simp [view]

/-- What a delete that returns did to the table and the flags: it removed the
terminator-appended form, or the bare form, or nothing. -/
theorem delete_cases (dict : DICT_MDB) (name : Bytes) (status : Int) (d1 : DICT_MDB)
    (h : dict_mdb_delete dict name = .ok (status, d1)) :
    (dict.flags.try1null = true ∧
      (∃ v, (view dict).get (folded dict.flags name ++ [0]) = some v) ∧ status = 0 ∧
      view d1 = (view dict).erase (folded dict.flags name ++ [0]) ∧
      d1.flags = { dict.flags with try0null := false }) ∨
    (dict.flags.try0null = true ∧
      (dict.flags.try1null = true ∨ dict.txn.isSome = true) ∧
      (dict.flags.try1null = false ∨
        (view dict).get (folded dict.flags name ++ [0]) = none) ∧
      (∃ v, (view dict).get (folded dict.flags name) = some v) ∧ status = 0 ∧
      view d1 = (view dict).erase (folded dict.flags name) ∧
      d1.flags = { dict.flags with try1null := false }) ∨
    (status = 1 ∧ view d1 = view dict ∧ d1.flags = dict.flags ∧
      (dict.flags.try1null = false ∨
        (view dict).get (folded dict.flags name ++ [0]) = none) ∧
      (dict.flags.try0null = false ∨ (view dict).get (folded dict.flags name) = none)) ∨
    (dict.txn = none ∧ dict.flags.try1null = false ∧ status = 0 ∧
      view d1 = view dict ∧ d1.flags = dict.flags) := by
  rcases hg1 : (view dict).get (folded dict.flags name ++ [0]) with _ | v1 <;>
  rcases hg0 : (view dict).get (folded dict.flags name) with _ | v0 <;>
  obtain ⟨flags, err, fb, env, txn, cur, kb, vb, w⟩ := dict <;>
  obtain ⟨dw, di, t0, t1, fx, lk, dr, ff⟩ := flags <;>
  obtain ⟨ro, st, lv, nx⟩ := env <;>
  rcases txn with _ | ⟨ti, tro, td⟩ <;>
  cases t1 <;> cases t0 <;> cases ff <;> (first | cases tro | cases ro) <;>
    simp [view, folded] at hg1 hg0 <;>
    simp [dict_mdb_delete, mdb_txn_begin, mdb_del, mdb_txn_commit, cmem_succ, cmem_length,
      cmem_lowercase_succ, cmem_lowercase_length, MDB_SUCCESS, MDB_NOTFOUND, EACCES,
      hg1, hg0] at h <;>
    (obtain ⟨rfl, rfl⟩ := h) <;> simp [view, folded, hg1, hg0]

/-- What a traversal call that returns did: it left table, flags and ambient
transaction alone; with status 1 it released cursor and read transaction and
assigned no output; with status 0 it stands on an entry of its snapshot. -/
theorem sequence_effect (dict : DICT_MDB) (function : Int) (key value : Option Bytes)
    (status : Int) (k1 v1 : Option Bytes) (d1 : DICT_MDB)
    (h : dict_mdb_sequence dict function key value = .ok (status, k1, v1, d1)) :
    d1.flags = dict.flags ∧ d1.txn = dict.txn ∧ d1.warnings = dict.warnings ∧
    d1.env.store = dict.env.store ∧ d1.env.rdonly = dict.env.rdonly ∧
    (status = 0 ∨ status = 1) ∧
    (status = 1 → d1.cursor = none ∧ k1 = key ∧ v1 = value ∧
      (∀ c, dict.cursor = some c →
        d1.env.live = dict.env.live.erase c.txn.id ∧ d1.env.next = dict.env.next) ∧
      (dict.cursor = none →
        d1.env.live = dict.env.live ∧ d1.env.next = dict.env.next + 1)) ∧
    (status = 0 → ∃ c i e, d1.cursor = some c ∧ c.pos = some i ∧ c.txn.data[i]? = some e ∧
      k1 = some (SCOPY e.1) ∧ v1 = (if e.2.length > 0 then some (SCOPY e.2) else value)) := by
  obtain ⟨flags, err, fb, env, txn, cur, kb, vb, w⟩ := dict
  obtain ⟨ro, st, lv, nx⟩ := env
  by_cases hf0 : function = DICT_SEQ_FUN_FIRST
  · subst hf0
    rcases cur with _ | ⟨t, pos⟩
    · rcases hget : st[0]? with _ | ⟨k, v⟩
      · simp [dict_mdb_sequence, mdb_txn_begin, mdb_cursor_open, mdb_cursor_get, MDB_SUCCESS,
          MDB_NOTFOUND, DICT_SEQ_FUN_FIRST, DICT_SEQ_FUN_NEXT, mdb_txn_abort, hget] at h
        obtain ⟨rfl, rfl, rfl, rfl⟩ := h
        simp
      · by_cases hv : v.length > 0 <;>
          simp [dict_mdb_sequence, mdb_txn_begin, mdb_cursor_open, mdb_cursor_get, MDB_SUCCESS,
            MDB_NOTFOUND, DICT_SEQ_FUN_FIRST, DICT_SEQ_FUN_NEXT, mdb_txn_abort, hget, hv] at h <;>
          (obtain ⟨rfl, rfl, rfl, rfl⟩ := h) <;> simp [hget, hv] <;>
            exact ⟨_, _, ⟨rfl, rfl⟩, rfl, by simp [hv]⟩
    · rcases hget : t.data[0]? with _ | ⟨k, v⟩
      · simp [dict_mdb_sequence, mdb_cursor_get, MDB_SUCCESS,
          MDB_NOTFOUND, DICT_SEQ_FUN_FIRST, DICT_SEQ_FUN_NEXT, mdb_txn_abort, hget] at h
        obtain ⟨rfl, rfl, rfl, rfl⟩ := h
        simp
      · by_cases hv : v.length > 0 <;>
          simp [dict_mdb_sequence, mdb_cursor_get, MDB_SUCCESS,
            MDB_NOTFOUND, DICT_SEQ_FUN_FIRST, DICT_SEQ_FUN_NEXT, mdb_txn_abort, hget, hv] at h <;>
          (obtain ⟨rfl, rfl, rfl, rfl⟩ := h) <;> simp [hget, hv] <;>
            exact ⟨_, _, ⟨rfl, rfl⟩, rfl, by simp [hv]⟩
  · by_cases hf1 : function = DICT_SEQ_FUN_NEXT
    · subst hf1
      rcases cur with _ | ⟨t, pos⟩
      · rcases hget : st[0]? with _ | ⟨k, v⟩
        · simp [dict_mdb_sequence, mdb_txn_begin, mdb_cursor_open, mdb_cursor_get, MDB_SUCCESS,
            MDB_NOTFOUND, DICT_SEQ_FUN_FIRST, DICT_SEQ_FUN_NEXT, mdb_txn_abort, hget] at h
          obtain ⟨rfl, rfl, rfl, rfl⟩ := h
          simp
        · by_cases hv : v.length > 0 <;>
            simp [dict_mdb_sequence, mdb_txn_begin, mdb_cursor_open, mdb_cursor_get,
              MDB_SUCCESS, MDB_NOTFOUND, DICT_SEQ_FUN_FIRST, DICT_SEQ_FUN_NEXT, mdb_txn_abort,
              hget, hv] at h <;>
            (obtain ⟨rfl, rfl, rfl, rfl⟩ := h) <;> simp [hget, hv] <;>
            exact ⟨_, _, ⟨rfl, rfl⟩, rfl, by simp [hv]⟩
      · rcases pos with _ | p
        · rcases hget : t.data[0]? with _ | ⟨k, v⟩
          · simp [dict_mdb_sequence, mdb_cursor_get, MDB_SUCCESS,
              MDB_NOTFOUND, DICT_SEQ_FUN_FIRST, DICT_SEQ_FUN_NEXT, mdb_txn_abort, hget] at h
            obtain ⟨rfl, rfl, rfl, rfl⟩ := h
            simp
          · by_cases hv : v.length > 0 <;>
              simp [dict_mdb_sequence, mdb_cursor_get, MDB_SUCCESS,
                MDB_NOTFOUND, DICT_SEQ_FUN_FIRST, DICT_SEQ_FUN_NEXT, mdb_txn_abort, hget,
                hv] at h <;>
              (obtain ⟨rfl, rfl, rfl, rfl⟩ := h) <;> simp [hget, hv] <;>
            exact ⟨_, _, ⟨rfl, rfl⟩, rfl, by simp [hv]⟩
        · rcases hget : t.data[p + 1]? with _ | ⟨k, v⟩
          · simp [dict_mdb_sequence, mdb_cursor_get, MDB_SUCCESS,
              MDB_NOTFOUND, DICT_SEQ_FUN_FIRST, DICT_SEQ_FUN_NEXT, mdb_txn_abort, hget] at h
            obtain ⟨rfl, rfl, rfl, rfl⟩ := h
            simp
          · by_cases hv : v.length > 0 <;>
              simp [dict_mdb_sequence, mdb_cursor_get, MDB_SUCCESS,
                MDB_NOTFOUND, DICT_SEQ_FUN_FIRST, DICT_SEQ_FUN_NEXT, mdb_txn_abort, hget,
                hv] at h <;>
              (obtain ⟨rfl, rfl, rfl, rfl⟩ := h) <;> simp [hget, hv] <;>
            exact ⟨_, _, ⟨rfl, rfl⟩, rfl, by simp [hv]⟩
    · simp [dict_mdb_sequence, hf0, hf1] at h

/-- No encoding flag: the sanity check of lookup panics. -/
theorem lookup_no_flag (dict : DICT_MDB) (name : Bytes)
    (h1 : dict.flags.try1null = false) (h0 : dict.flags.try0null = false) :
    dict_mdb_lookup dict name = .error .panic_no_flag := by
  simp [dict_mdb_lookup, h1, h0]

/-- What a lookup that returns found: the terminator-appended form, or the bare
form, or nothing; only a match narrows the flags. -/
theorem lookup_cases (dict : DICT_MDB) (name : Bytes) (r : Option Bytes) (d1 : DICT_MDB)
    (h : dict_mdb_lookup dict name = .ok (r, d1)) :
    (dict.flags.try1null = true ∧
      (∃ v, (view dict).get (folded dict.flags name ++ [0]) = some v ∧ r = some (SCOPY v)) ∧
      d1.flags = { dict.flags with try0null := false }) ∨
    (dict.flags.try0null = true ∧
      (dict.flags.try1null = false ∨
        (view dict).get (folded dict.flags name ++ [0]) = none) ∧
      (∃ v, (view dict).get (folded dict.flags name) = some v ∧ r = some (SCOPY v)) ∧
      d1.flags = { dict.flags with try1null := false }) ∨
    (r = none ∧ d1.flags = dict.flags ∧
      (dict.flags.try1null = false ∨
        (view dict).get (folded dict.flags name ++ [0]) = none) ∧
      (dict.flags.try0null = false ∨ (view dict).get (folded dict.flags name) = none)) := by
  by_cases hflag : dict.flags.try1null = true ∨ dict.flags.try0null = true
  · by_cases h1 : dict.flags.try1null = true ∧
        ∃ v, (view dict).get (folded dict.flags name ++ [0]) = some v
    · obtain ⟨ht, v, hv⟩ := h1
      obtain ⟨d2, hl, hfl, -⟩ := lookup_found1 dict name v ht hv
      rw [hl] at h
      cases h
      exact Or.inl ⟨ht, ⟨v, hv, rfl⟩, hfl⟩
    · have hmiss1 : dict.flags.try1null = false ∨
          (view dict).get (folded dict.flags name ++ [0]) = none := by
        by_cases ht : dict.flags.try1null = true
        · right
          by_contra hne
          obtain ⟨v, hv⟩ := Option.ne_none_iff_exists'.mp hne
          exact h1 ⟨ht, v, hv⟩
        · left
          simpa using ht
      by_cases h0 : dict.flags.try0null = true ∧
          ∃ v, (view dict).get (folded dict.flags name) = some v
      · obtain ⟨ht, v, hv⟩ := h0
        obtain ⟨d2, hl, hfl, -⟩ := lookup_found0 dict name v ht hmiss1 hv
        rw [hl] at h
        cases h
        exact Or.inr (Or.inl ⟨ht, hmiss1, ⟨v, hv, rfl⟩, hfl⟩)
      · have hmiss0 : dict.flags.try0null = false ∨
            (view dict).get (folded dict.flags name) = none := by
          by_cases ht : dict.flags.try0null = true
          · right
            by_contra hne
            obtain ⟨v, hv⟩ := Option.ne_none_iff_exists'.mp hne
            exact h0 ⟨ht, v, hv⟩
          · left
            simpa using ht
        obtain ⟨d2, hl, hfl, -⟩ := lookup_missing dict name hflag hmiss1 hmiss0
        rw [hl] at h
        cases h
        exact Or.inr (Or.inr ⟨rfl, hfl, hmiss1, hmiss0⟩)
  · simp only [not_or] at hflag
    rw [lookup_no_flag dict name (by simpa using hflag.1) (by simpa using hflag.2)] at h
    cases h

/-- The table a handle works on is fixed by its ambient transaction and its
committed table. -/
theorem view_congr (d1 d2 : DICT_MDB) (ht : d1.txn = d2.txn) (hs : d1.env.store = d2.env.store) :
    view d1 = view d2 := by
  simp only [view, ht, hs]

/-- Two environments with the same components are the same. -/
theorem MDB_env.eq_of_fields (a b : MDB_env) (h1 : a.rdonly = b.rdonly)
    (h2 : a.store = b.store) (h3 : a.live = b.live) (h4 : a.next = b.next) : a = b := by
  cases a
  cases b
  simp only at h1 h2 h3 h4
  simp only [h1, h2, h3, h4]

/-- C17: transaction balance of the per-call operations. For every handle
state, after lookup, update or delete returns, the transactions that are live
are the same as before the call. With an ambient write transaction the
environment, the committed table included, is untouched (nothing was begun,
committed or aborted), the handle still holds that transaction, and what an
update or delete wrote is in that transaction. Without one the call began
exactly one transaction and finalized it: lookup aborted it (the committed
table is unchanged); update committed it (the committed table is the former
one with the pair stored, or the former one on a collision); delete committed
it (the committed table is the former one without the entry it removed: the
terminator-appended form when that is enabled and stored, else the bare form
when both encodings are enabled and it is stored). -/
theorem transaction_balance (ntn : Bool) (dict : DICT_MDB) (name value : Bytes) :
    (∀ r d1, dict_mdb_lookup dict name = .ok (r, d1) →
      d1.env.live = dict.env.live ∧ d1.txn = dict.txn ∧
      (dict.txn.isSome = true → d1.env = dict.env) ∧
      (dict.txn = none → d1.env.next = dict.env.next + 1) ∧
      d1.env.store = dict.env.store) ∧
    (∀ status d1, dict_mdb_update ntn dict name value = .ok (status, d1) →
      d1.env.live = dict.env.live ∧
      d1.txn.map (fun t => t.id) = dict.txn.map (fun t => t.id) ∧
      (dict.txn.isSome = true → d1.env = dict.env) ∧
      (dict.txn = none → d1.env.next = dict.env.next + 1 ∧ d1.env.store = view d1) ∧
      (dict.txn = none →
        d1.env.store =
          if dict.flags.dup_replace = true ∨
              dict.env.store.get (update_key ntn dict.flags name) = none
          then dict.env.store.insert (update_key ntn dict.flags name)
            (update_value ntn dict.flags value)
          else dict.env.store) ∧
      (∀ t, dict.txn = some t →
        ∃ t1, d1.txn = some t1 ∧ t1.id = t.id ∧
          t1.data =
            if dict.flags.dup_replace = true ∨
                t.data.get (update_key ntn dict.flags name) = none
            then t.data.insert (update_key ntn dict.flags name)
              (update_value ntn dict.flags value)
            else t.data)) ∧
    (∀ status d1, dict_mdb_delete dict name = .ok (status, d1) →
      d1.env.live = dict.env.live ∧
      d1.txn.map (fun t => t.id) = dict.txn.map (fun t => t.id) ∧
      (dict.txn.isSome = true → d1.env = dict.env) ∧
      (dict.txn = none → d1.env.next = dict.env.next + 1 ∧ d1.env.store = view d1) ∧
      (dict.txn = none →
        (dict.flags.try1null = true →
          (∃ v, dict.env.store.get (folded dict.flags name ++ [0]) = some v) →
          status = 0 ∧
          d1.env.store = dict.env.store.erase (folded dict.flags name ++ [0])) ∧
        (dict.flags.try1null = true → dict.flags.try0null = true →
          dict.env.store.get (folded dict.flags name ++ [0]) = none →
          (∃ v, dict.env.store.get (folded dict.flags name) = some v) →
          status = 0 ∧
          d1.env.store = dict.env.store.erase (folded dict.flags name)) ∧
        (status = 1 → d1.env.store = dict.env.store) ∧
        (d1.env.store = dict.env.store ∨
          d1.env.store = dict.env.store.erase (folded dict.flags name ++ [0]) ∨
          d1.env.store = dict.env.store.erase (folded dict.flags name))) ∧
      (∀ t, dict.txn = some t →
        ∃ t1, d1.txn = some t1 ∧ t1.id = t.id ∧
          (t1.data = t.data ∨
            t1.data = t.data.erase (folded dict.flags name ++ [0]) ∨
            t1.data = t.data.erase (folded dict.flags name)))) := by
  refine ⟨?_, ?_, ?_⟩
  · intro r d1 h
    obtain ⟨htxn, -, -, hstore, hlive, hro, hnext⟩ := lookup_env dict name r d1 h
    refine ⟨hlive, htxn, ?_, ?_, hstore⟩
    · intro hs
      rw [hs] at hnext
      exact MDB_env.eq_of_fields _ _ hro hstore hlive (by simpa using hnext)
    · intro hn
      rw [hn] at hnext
      simpa using hnext
  · intro status d1 h
    obtain ⟨hid, -, henv, hlive, -, hnext⟩ := update_env ntn dict name value status d1 h
    have hview := (update_view ntn dict name value status d1 h).2
    have hnone : dict.txn = none → d1.txn = none := by
      intro hn
      rw [hn] at hid
      cases hd : d1.txn with
      | none => rfl
      | some t => rw [hd] at hid; cases hid
    refine ⟨hlive, hid, henv, ?_, ?_, ?_⟩
    · intro hn
      rw [hn] at hnext
      refine ⟨by simpa using hnext, ?_⟩
      simp only [view, hnone hn]
    · intro hn
      have hv1 : view d1 = d1.env.store := by simp only [view, hnone hn]
      have hv0 : view dict = dict.env.store := by simp only [view, hn]
      rw [hv1, hv0] at hview
      exact hview
    · intro t ht
      rw [ht] at hid
      cases hd : d1.txn with
      | none => rw [hd] at hid; cases hid
      | some t1 =>
        rw [hd] at hid
        simp only [Option.map_some', Option.some.injEq] at hid
        have hv1 : view d1 = t1.data := by simp only [view, hd]
        have hv0 : view dict = t.data := by simp only [view, ht]
        rw [hv1, hv0] at hview
        exact ⟨t1, rfl, hid, hview⟩
  · intro status d1 h
    obtain ⟨hid, -, -, henv, hlive, -, hnext, hstore⟩ := delete_env dict name status d1 h
    refine ⟨hlive, hid, henv, ?_, ?_, ?_⟩
    · intro hn
      rw [hn] at hnext
      exact ⟨by simpa using hnext, hstore hn⟩
    · intro hn
      have hv0 : view dict = dict.env.store := by simp only [view, hn]
      have hv1 : view d1 = d1.env.store := (hstore hn).symm
      have hc := delete_cases dict name status d1 h
      rw [hv0, hv1] at hc
      rcases hc with ⟨ht, hv, hs, hview, -⟩ | ⟨ht, -, hm, hv, hs, hview, -⟩ |
        ⟨hs, hview, -, hm1, hm0⟩ | ⟨-, ht, hs, hview, -⟩
      · refine ⟨fun _ _ => ⟨hs, hview⟩, ?_, ?_, Or.inr (Or.inl hview)⟩
        · intro _ _ hnone1
          obtain ⟨v, hv⟩ := hv
          rw [hv] at hnone1
          cases hnone1
        · intro h1
          rw [hs] at h1
          cases h1
      · refine ⟨?_, fun _ _ _ _ => ⟨hs, hview⟩, ?_, Or.inr (Or.inr hview)⟩
        · intro h1 ⟨v, hv1⟩
          rcases hm with hm | hm
          · rw [h1] at hm
            exact Bool.noConfusion hm
          · rw [hv1] at hm
            cases hm
        · intro h1
          rw [hs] at h1
          cases h1
      · refine ⟨?_, ?_, fun _ => hview, Or.inl hview⟩
        · intro h1 ⟨v, hv1⟩
          rcases hm1 with hm | hm
          · rw [h1] at hm
            exact Bool.noConfusion hm
          · rw [hv1] at hm
            cases hm
        · intro _ h0 _ ⟨v, hv0'⟩
          rcases hm0 with hm | hm
          · rw [h0] at hm
            exact Bool.noConfusion hm
          · rw [hv0'] at hm
            cases hm
      · refine ⟨?_, ?_, fun _ => hview, Or.inl hview⟩
        · intro h1 _
          rw [h1] at ht
          exact Bool.noConfusion ht
        · intro h1 _ _ _
          rw [h1] at ht
          exact Bool.noConfusion ht
    · intro t ht
      rw [ht] at hid
      cases hd : d1.txn with
      | none => rw [hd] at hid; cases hid
      | some t1 =>
        rw [hd] at hid
        simp only [Option.map_some', Option.some.injEq] at hid
        have hv1 : view d1 = t1.data := by simp only [view, hd]
        have hv0 : view dict = t.data := by simp only [view, ht]
        have hc := delete_cases dict name status d1 h
        rw [hv0, hv1] at hc
        refine ⟨t1, rfl, hid, ?_⟩
        rcases hc with ⟨-, -, -, hview, -⟩ | ⟨-, -, -, -, -, hview, -⟩ |
          ⟨-, hview, -⟩ | ⟨-, -, -, hview, -⟩
        · exact Or.inr (Or.inl hview)
        · exact Or.inr (Or.inr hview)
        · exact Or.inl hview
        · exact Or.inl hview

/-- One call never sets an encoding flag, never touches another flag, and
changes no encoding flag unless both were set. -/
theorem apply_op_flags (ntn : Bool) (dict : DICT_MDB) (op : Op) (d1 : DICT_MDB)
    (h : apply_op ntn dict op = .ok d1) :
    (d1.flags.try1null = true → dict.flags.try1null = true) ∧
    (d1.flags.try0null = true → dict.flags.try0null = true) ∧
    (dict.flags.try1null = false ∨ dict.flags.try0null = false →
      d1.flags.try1null = dict.flags.try1null ∧ d1.flags.try0null = dict.flags.try0null) ∧
    (d1.flags.fold_fix = dict.flags.fold_fix ∧ d1.flags.dup_replace = dict.flags.dup_replace ∧
      d1.flags.dup_ignore = dict.flags.dup_ignore ∧ d1.flags.dup_warn = dict.flags.dup_warn) := by
  have key : d1.flags = dict.flags ∨
      (dict.flags.try1null = true ∧ d1.flags = { dict.flags with try0null := false }) ∨
      (dict.flags.try0null = true ∧ d1.flags = { dict.flags with try1null := false }) := by
    cases op with
    | lookup name =>
      simp only [apply_op] at h
      cases hu : dict_mdb_lookup dict name with
      | error e => rw [hu] at h; simp only [Except.map] at h; cases h
      | ok r =>
        rw [hu] at h
        simp only [Except.map] at h
        cases h
        obtain ⟨res, d⟩ := r
        rcases lookup_cases dict name res d hu with ⟨ht, -, hf⟩ | ⟨ht, -, -, hf⟩ | ⟨-, hf, -⟩
        · exact Or.inr (Or.inl ⟨ht, hf⟩)
        · exact Or.inr (Or.inr ⟨ht, hf⟩)
        · exact Or.inl hf
    | update name value =>
      simp only [apply_op] at h
      cases hu : dict_mdb_update ntn dict name value with
      | error e => rw [hu] at h; simp only [Except.map] at h; cases h
      | ok r =>
        rw [hu] at h
        simp only [Except.map] at h
        cases h
        obtain ⟨st, d⟩ := r
        have hfl := update_flags ntn dict name value st d hu
        simp only [hfl, narrow]
        split_ifs with hb hn
        · exact Or.inr (Or.inr ⟨hb.2, rfl⟩)
        · exact Or.inr (Or.inl ⟨hb.1, rfl⟩)
        · exact Or.inl rfl
    | delete name =>
      simp only [apply_op] at h
      cases hu : dict_mdb_delete dict name with
      | error e => rw [hu] at h; simp only [Except.map] at h; cases h
      | ok r =>
        rw [hu] at h
        simp only [Except.map] at h
        cases h
        obtain ⟨st, d⟩ := r
        exact delete_flags dict name st d hu
    | sequence function key value =>
      simp only [apply_op] at h
      cases hu : dict_mdb_sequence dict function key value with
      | error e => rw [hu] at h; simp only [Except.map] at h; cases h
      | ok r =>
        rw [hu] at h
        simp only [Except.map] at h
        cases h
        exact Or.inl (sequence_flags dict function key value r hu).1
  rcases key with hf | ⟨ht, hf⟩ | ⟨ht, hf⟩
  · rw [hf]
    exact ⟨id, id, fun _ => ⟨rfl, rfl⟩, rfl, rfl, rfl, rfl⟩
  · rw [hf]
    refine ⟨id, (fun hc => Bool.noConfusion hc), ?_, rfl, rfl, rfl, rfl⟩
    rintro (h1 | h0)
    · rw [ht] at h1
      exact Bool.noConfusion h1
    · exact ⟨rfl, h0.symm⟩
  · rw [hf]
    refine ⟨(fun hc => Bool.noConfusion hc), id, ?_, rfl, rfl, rfl, rfl⟩
    rintro (h1 | h0)
    · exact ⟨h1.symm, rfl⟩
    · rw [ht] at h0
      exact Bool.noConfusion h0

/-- A series of calls never sets an encoding flag, and changes no encoding flag
once at most one is set. -/
theorem run_ops_flags (ntn : Bool) (ops : List Op) : ∀ (dict d1 : DICT_MDB),
    run_ops ntn dict ops = .ok d1 →
    (d1.flags.try1null = true → dict.flags.try1null = true) ∧
    (d1.flags.try0null = true → dict.flags.try0null = true) ∧
    (dict.flags.try1null = false ∨ dict.flags.try0null = false →
      d1.flags.try1null = dict.flags.try1null ∧ d1.flags.try0null = dict.flags.try0null) := by
  induction ops with
  | nil =>
    intro dict d1 h
    simp only [run_ops] at h
    cases h
    exact ⟨id, id, fun _ => ⟨rfl, rfl⟩⟩
  | cons op ops ih =>
    intro dict d1 h
    cases ha : apply_op ntn dict op with
    | error e => simp only [run_ops, ha] at h; cases h
    | ok d =>
      simp only [run_ops, ha] at h
      obtain ⟨a1, a0, as, -⟩ := apply_op_flags ntn dict op d ha
      obtain ⟨b1, b0, bs⟩ := ih d d1 h
      refine ⟨fun hh => a1 (b1 hh), fun hh => a0 (b0 hh), ?_⟩
      intro hsingle
      obtain ⟨e1, e0⟩ := as hsingle
      have hsingle' : d.flags.try1null = false ∨ d.flags.try0null = false := by
        rw [e1, e0]
        exact hsingle
      obtain ⟨f1, f0⟩ := bs hsingle'
      exact ⟨by rw [f1, e1], by rw [f0, e0]⟩

/-- C19: the encoding flags only narrow. For every call on a handle (lookup,
update, delete, sequence) and every series of calls, an encoding flag set
afterwards was set before, and no other flag changes. A lookup clears a flag
only when it returned the value found under the other representation; a
delete clears a flag only when it removed the entry of the other
representation; an update clears a flag only when both were set. When at most
one encoding flag is set, no call and no series of calls changes the encoding
flags. -/
theorem encoding_flags_only_narrow (ntn : Bool) (dict : DICT_MDB) :
    (∀ op d1, apply_op ntn dict op = .ok d1 →
      (d1.flags.try1null = true → dict.flags.try1null = true) ∧
      (d1.flags.try0null = true → dict.flags.try0null = true) ∧
      (dict.flags.try1null = false ∨ dict.flags.try0null = false →
        d1.flags.try1null = dict.flags.try1null ∧
        d1.flags.try0null = dict.flags.try0null) ∧
      (d1.flags.fold_fix = dict.flags.fold_fix ∧
        d1.flags.dup_replace = dict.flags.dup_replace ∧
        d1.flags.dup_ignore = dict.flags.dup_ignore ∧
        d1.flags.dup_warn = dict.flags.dup_warn)) ∧
    (∀ ops d1, run_ops ntn dict ops = .ok d1 →
      (d1.flags.try1null = true → dict.flags.try1null = true) ∧
      (d1.flags.try0null = true → dict.flags.try0null = true) ∧
      (dict.flags.try1null = false ∨ dict.flags.try0null = false →
        d1.flags.try1null = dict.flags.try1null ∧
        d1.flags.try0null = dict.flags.try0null)) ∧
    (∀ name r d1, dict_mdb_lookup dict name = .ok (r, d1) →
      (d1.flags.try0null ≠ dict.flags.try0null →
        dict.flags.try1null = true ∧
        ∃ v, (view dict).get (folded dict.flags name ++ [0]) = some v ∧ r = some (SCOPY v)) ∧
      (d1.flags.try1null ≠ dict.flags.try1null →
        dict.flags.try0null = true ∧
        ∃ v, (view dict).get (folded dict.flags name) = some v ∧ r = some (SCOPY v))) ∧
    (∀ name status d1, dict_mdb_delete dict name = .ok (status, d1) →
      (d1.flags.try0null ≠ dict.flags.try0null →
        dict.flags.try1null = true ∧ status = 0 ∧
        (∃ v, (view dict).get (folded dict.flags name ++ [0]) = some v) ∧
        view d1 = (view dict).erase (folded dict.flags name ++ [0])) ∧
      (d1.flags.try1null ≠ dict.flags.try1null →
        dict.flags.try0null = true ∧ status = 0 ∧
        (∃ v, (view dict).get (folded dict.flags name) = some v) ∧
        view d1 = (view dict).erase (folded dict.flags name))) ∧
    (∀ name value status d1, dict_mdb_update ntn dict name value = .ok (status, d1) →
      (d1.flags.try0null ≠ dict.flags.try0null ∨ d1.flags.try1null ≠ dict.flags.try1null →
        dict.flags.try1null = true ∧ dict.flags.try0null = true)) := by
  refine ⟨fun op d1 h => apply_op_flags ntn dict op d1 h,
    fun ops d1 h => run_ops_flags ntn ops dict d1 h, ?_, ?_, ?_⟩
  · intro name r d1 h
    rcases lookup_cases dict name r d1 h with ⟨ht, hv, hf⟩ | ⟨ht, -, hv, hf⟩ | ⟨-, hf, -⟩
    · rw [hf]
      exact ⟨fun _ => ⟨ht, hv⟩, fun hne => absurd rfl hne⟩
    · rw [hf]
      exact ⟨fun hne => absurd rfl hne, fun _ => ⟨ht, hv⟩⟩
    · rw [hf]
      exact ⟨fun hne => absurd rfl hne, fun hne => absurd rfl hne⟩
  · intro name status d1 h
    rcases delete_cases dict name status d1 h with
      ⟨ht, hv, hs, hview, hf⟩ | ⟨ht, -, -, hv, hs, hview, hf⟩ | ⟨-, -, hf, -⟩ | ⟨-, -, -, -, hf⟩
    · rw [hf]
      exact ⟨fun _ => ⟨ht, hs, hv, hview⟩, fun hne => absurd rfl hne⟩
    · rw [hf]
      exact ⟨fun hne => absurd rfl hne, fun _ => ⟨ht, hs, hv, hview⟩⟩
    · rw [hf]
      exact ⟨fun hne => absurd rfl hne, fun hne => absurd rfl hne⟩
    · rw [hf]
      exact ⟨fun hne => absurd rfl hne, fun hne => absurd rfl hne⟩
  · intro name value status d1 h hne
    have hfl := update_flags ntn dict name value status d1 h
    by_contra hnb
    apply hne.elim
    · intro h0
      apply h0
      rw [hfl]
      unfold narrow
      rw [if_neg hnb]
    · intro h1
      apply h1
      rw [hfl]
      unfold narrow
      rw [if_neg hnb]

theorem Store.erase_of_not_mem (s : Store) (k : Bytes) (h : k ∉ s.map Prod.fst) :
    s.erase k = s := by
  unfold Store.erase
  rw [List.filter_eq_self]
  intro e he
  have : e.1 ≠ k := fun heq => h (heq ▸ List.mem_map_of_mem Prod.fst he)
  simpa using this

/-- Over a table with pairwise distinct keys, removing a key removes at most one entry. -/
theorem Store.length_le_erase (s : Store) (k : Bytes) (h : (s.map Prod.fst).Nodup) :
    s.length ≤ (s.erase k).length + 1 := by
  induction s with
  | nil => simp [Store.erase]
  | cons e rest ih =>
    simp only [List.map_cons, List.nodup_cons] at h
    by_cases hk : e.1 = k
    · have hrest : Store.erase rest k = rest :=
        Store.erase_of_not_mem rest k (hk ▸ h.1)
      have : Store.erase (e :: rest) k = Store.erase rest k := by
        simp [Store.erase, List.filter_cons, hk]
      rw [this, hrest]
      simp
    · have : Store.erase (e :: rest) k = e :: Store.erase rest k := by
        simp [Store.erase, List.filter_cons, hk]
      rw [this]
      have := ih h.2
      simp only [List.length_cons]
      omega

/-- C20: frame of the store. A lookup and a traversal call leave the table the
handle works on and the committed table as they were. An update changes at
most the entry of the folded key in the encoding it selects. A delete leaves
the table alone or removes exactly the entry of the folded key in one enabled
encoding, the terminator-appended one first: when that form is stored and
enabled it alone is removed, and the bare form of the same key stays. Every
entry under any other key is unchanged, and over a table with pairwise
distinct keys a delete removes at most one entry. -/
theorem store_frame (ntn : Bool) (dict : DICT_MDB) :
    (∀ name r d1, dict_mdb_lookup dict name = .ok (r, d1) →
      view d1 = view dict ∧ d1.env.store = dict.env.store) ∧
    (∀ function key value r, dict_mdb_sequence dict function key value = .ok r →
      view r.2.2.2 = view dict ∧ r.2.2.2.env.store = dict.env.store) ∧
    (∀ name value status d1, dict_mdb_update ntn dict name value = .ok (status, d1) →
      (view d1 = view dict ∨
        view d1 = (view dict).insert (update_key ntn dict.flags name)
          (update_value ntn dict.flags value)) ∧
      ∀ key, key ≠ update_key ntn dict.flags name →
        (view d1).get key = (view dict).get key) ∧
    (∀ name status d1, dict_mdb_delete dict name = .ok (status, d1) →
      (view d1 = view dict ∨
        (dict.flags.try1null = true ∧
          view d1 = (view dict).erase (folded dict.flags name ++ [0])) ∨
        (dict.flags.try0null = true ∧
          (view dict).get (folded dict.flags name ++ [0]) = (view d1).get
            (folded dict.flags name ++ [0]) ∧
          view d1 = (view dict).erase (folded dict.flags name))) ∧
      (dict.flags.try1null = true →
        (∃ v, (view dict).get (folded dict.flags name ++ [0]) = some v) →
        status = 0 ∧
        view d1 = (view dict).erase (folded dict.flags name ++ [0]) ∧
        (view d1).get (folded dict.flags name ++ [0]) = none ∧
        ∀ key, key ≠ folded dict.flags name ++ [0] →
          (view d1).get key = (view dict).get key) ∧
      (∀ key, key ≠ folded dict.flags name ++ [0] → key ≠ folded dict.flags name →
        (view d1).get key = (view dict).get key) ∧
      (((view dict).map Prod.fst).Nodup → (view dict).length ≤ (view d1).length + 1)) := by
  have hne : ∀ k : Bytes, k ≠ k ++ [0] := by
    intro k hk
    have := congrArg List.length hk
    simp at this
  refine ⟨?_, ?_, ?_, ?_⟩
  · intro name r d1 h
    obtain ⟨htxn, -, -, hstore, -⟩ := lookup_env dict name r d1 h
    exact ⟨view_congr d1 dict htxn hstore, hstore⟩
  · intro function key value r h
    obtain ⟨st, k1, v1, d1⟩ := r
    obtain ⟨-, htxn, -, hstore, -⟩ := sequence_effect dict function key value st k1 v1 d1 h
    exact ⟨view_congr d1 dict htxn hstore, hstore⟩
  · intro name value status d1 h
    have hv := (update_view ntn dict name value status d1 h).2
    constructor
    · rw [hv]
      split_ifs
      · exact Or.inr rfl
      · exact Or.inl rfl
    · intro key hkey
      rw [hv]
      split_ifs
      · exact Store.get_insert_of_ne _ _ _ _ hkey
      · rfl
  · intro name status d1 h
    rcases delete_cases dict name status d1 h with
      ⟨ht, hv, hs, hview, -⟩ | ⟨ht, -, hm, hv, hs, hview, -⟩ | ⟨hs, hview, -, hm1, -⟩ |
      ⟨-, ht, hs, hview, -⟩
    · refine ⟨Or.inr (Or.inl ⟨ht, hview⟩), ?_, ?_, ?_⟩
      · intro _ _
        refine ⟨hs, hview, ?_, ?_⟩
        · rw [hview]
          exact Store.get_erase_self _ _
        · intro key hkey
          rw [hview]
          exact Store.get_erase_of_ne _ _ _ hkey
      · intro key hk1 _
        rw [hview]
        exact Store.get_erase_of_ne _ _ _ hk1
      · intro hnd
        rw [hview]
        exact Store.length_le_erase _ _ hnd
    · refine ⟨Or.inr (Or.inr ⟨ht, ?_, hview⟩), ?_, ?_, ?_⟩
      · rw [hview]
        exact (Store.get_erase_of_ne _ _ _ (hne _).symm).symm
      · intro h1 ⟨v, hv1⟩
        rcases hm with hm | hm
        · rw [h1] at hm
          exact Bool.noConfusion hm
        · rw [hv1] at hm
          cases hm
      · intro key _ hk0
        rw [hview]
        exact Store.get_erase_of_ne _ _ _ hk0
      · intro hnd
        rw [hview]
        exact Store.length_le_erase _ _ hnd
    · refine ⟨Or.inl hview, ?_, ?_, ?_⟩
      · intro h1 ⟨v, hv1⟩
        rcases hm1 with hm | hm
        · rw [h1] at hm
          exact Bool.noConfusion hm
        · rw [hv1] at hm
          cases hm
      · intro key _ _
        rw [hview]
      · intro _
        rw [hview]
        omega
    · refine ⟨Or.inl hview, ?_, ?_, ?_⟩
      · intro h1 _
        rw [h1] at ht
        exact Bool.noConfusion ht
      · intro key _ _
        rw [hview]
      · intro _
        rw [hview]
        omega

/-- A call other than a traversal step leaves the cursor alone. -/
theorem apply_op_cursor (ntn : Bool) (dict : DICT_MDB) (op : Op) (d1 : DICT_MDB)
    (hop : op.is_sequence = false) (h : apply_op ntn dict op = .ok d1) :
    d1.cursor = dict.cursor := by
  cases op with
  | lookup name =>
    simp only [apply_op] at h
    cases hu : dict_mdb_lookup dict name with
    | error e => rw [hu] at h; simp only [Except.map] at h; cases h
    | ok r =>
      rw [hu] at h
      simp only [Except.map] at h
      cases h
      exact (lookup_env dict name r.1 r.2 hu).2.1
  | update name value =>
    simp only [apply_op] at h
    cases hu : dict_mdb_update ntn dict name value with
    | error e => rw [hu] at h; simp only [Except.map] at h; cases h
    | ok r =>
      rw [hu] at h
      simp only [Except.map] at h
      cases h
      exact (update_env ntn dict name value r.1 r.2 hu).2.1
  | delete name =>
    simp only [apply_op] at h
    cases hu : dict_mdb_delete dict name with
    | error e => rw [hu] at h; simp only [Except.map] at h; cases h
    | ok r =>
      rw [hu] at h
      simp only [Except.map] at h
      cases h
      exact (delete_env dict name r.1 r.2 hu).2.1
  | sequence function key value => simp [Op.is_sequence] at hop

/-- A series of calls without traversal steps leaves the cursor alone. -/
theorem run_ops_cursor (ntn : Bool) (ops : List Op) : ∀ (dict d1 : DICT_MDB),
    (∀ op ∈ ops, op.is_sequence = false) → run_ops ntn dict ops = .ok d1 →
    d1.cursor = dict.cursor := by
  induction ops with
  | nil =>
    intro dict d1 _ h
    simp only [run_ops] at h
    cases h
    rfl
  | cons op ops ih =>
    intro dict d1 hall h
    cases ha : apply_op ntn dict op with
    | error e => simp only [run_ops, ha] at h; cases h
    | ok d =>
      simp only [run_ops, ha] at h
      rw [ih d d1 (fun o ho => hall o (List.mem_cons_of_mem _ ho)) h]
      exact apply_op_cursor ntn dict op d (hall op (List.mem_cons_self _ _)) ha

/-- C14: restart after exhaustion. When a traversal call reports
end-of-sequence (status 1) it has cleared the handle's cursor reference and
aborted the cursor's read transaction. The next traversal call on the handle,
made at once or after lookups, updates and deletes, whether FIRST or NEXT,
begins a new read transaction on the committed table as it is then: over an
empty table it reports end-of-sequence again and releases that transaction;
otherwise it returns 0, stands on the first entry, and delivers that entry's
key and (where the stored value is not empty) value up to the first zero
byte. -/
theorem sequence_restart_after_end (dict : DICT_MDB) (function : Int)
    (key value k1 v1 : Option Bytes) (d1 : DICT_MDB)
    (h : dict_mdb_sequence dict function key value = .ok (1, k1, v1, d1)) :
    d1.cursor = none ∧
    (∀ c, dict.cursor = some c → d1.env.live = dict.env.live.erase c.txn.id) ∧
    (dict.cursor = none → d1.env.live = dict.env.live) ∧
    ∀ (ntn : Bool) (ops : List Op) (d2 : DICT_MDB),
      (∀ op ∈ ops, op.is_sequence = false) → run_ops ntn d1 ops = .ok d2 →
      d2.cursor = none ∧
      ∀ (function2 : Int) (key2 value2 : Option Bytes),
        function2 = DICT_SEQ_FUN_FIRST ∨ function2 = DICT_SEQ_FUN_NEXT →
        (d2.env.store = [] →
          ∃ d3, dict_mdb_sequence d2 function2 key2 value2 = .ok (1, key2, value2, d3) ∧
            d3.cursor = none ∧ d3.env.live = d2.env.live) ∧
        (∀ e rest, d2.env.store = e :: rest →
          ∃ d3, dict_mdb_sequence d2 function2 key2 value2
              = .ok (0, some (SCOPY e.1),
                  (if e.2.length > 0 then some (SCOPY e.2) else value2), d3) ∧
            d3.cursor = some ⟨⟨d2.env.next, true, d2.env.store⟩, some 0⟩ ∧
            d3.env.live = d2.env.next :: d2.env.live) := by
  obtain ⟨-, -, -, -, -, -, hend, -⟩ := sequence_effect dict function key value 1 k1 v1 d1 h
  obtain ⟨hcur, -, -, hsome, hnone⟩ := hend rfl
  refine ⟨hcur, fun c hc => (hsome c hc).1, fun hc => (hnone hc).1, ?_⟩
  intro ntn ops d2 hall hrun
  have hcur2 : d2.cursor = none := by
    rw [run_ops_cursor ntn ops d1 d2 hall hrun, hcur]
  refine ⟨hcur2, ?_⟩
  intro function2 key2 value2 hfun
  constructor
  · intro hs
    obtain ⟨d3, hq, hc3, henv, -⟩ := sequence_open_empty d2 function2 key2 value2 hfun hcur2 hs
    exact ⟨d3, hq, hc3, by rw [henv]⟩
  · intro e rest hs
    obtain ⟨d3, hq, hc3, henv, -⟩ :=
      sequence_open_found d2 function2 key2 value2 e rest hfun hcur2 hs
    exact ⟨d3, hq, hc3, by rw [henv]⟩

/-- Instance of C14: the traversal of a table of one entry has reached its end;
the handle has no cursor, and the next call, with NEXT, delivers the entry
again. -/
theorem sequence_restart_after_end_witness :
    ∃ d3, dict_mdb_sequence
        { idleHandle { noFlags with try1null := true } [([97, 0], [49, 0])] with
          key_buf := some [97]
          val_buf := some [49]
          env := { rdonly := false, store := [([97, 0], [49, 0])], live := [], next := 1 } }
        DICT_SEQ_FUN_NEXT none none
      = .ok (0, some [97], some [49], d3) ∧
      d3.cursor = some ⟨⟨1, true, [([97, 0], [49, 0])]⟩, some 0⟩ ∧
      d3.env.live = [1] :=
  (((sequence_restart_after_end
    { idleHandle { noFlags with try1null := true } [([97, 0], [49, 0])] with
      cursor := some ⟨⟨0, true, [([97, 0], [49, 0])]⟩, some 0⟩
      key_buf := some [97]
      val_buf := some [49]
      env := { rdonly := false, store := [([97, 0], [49, 0])], live := [0], next := 1 } }
    DICT_SEQ_FUN_NEXT (some [97]) (some [49]) (some [97]) (some [49]) _ rfl).2.2.2
      false [] _ (fun _ ho => nomatch ho) rfl).2
        DICT_SEQ_FUN_NEXT none none (Or.inr rfl)).2 ([97, 0], [49, 0]) [] rfl

/-- An update that stores is read back by the lookup that follows. -/
theorem update_stored_then_found (ntn : Bool) (dict : DICT_MDB) (name value : Bytes)
    (hflag : dict.flags.try1null = true ∨ dict.flags.try0null = true)
    (hw : writable dict)
    (hvalue : 0 ∉ value)
    (hst : dict.flags.dup_replace = true ∨
      (view dict).get (update_key ntn dict.flags name) = none) :
    ∃ d1 d2, dict_mdb_update ntn dict name value = .ok (0, d1) ∧
      d1.flags = narrow ntn dict.flags ∧ writable d1 ∧
      (view d1).get (update_key ntn dict.flags name) = some (update_value ntn dict.flags value) ∧
      dict_mdb_lookup d1 name = .ok (some value, d2) := by
  obtain ⟨d1, hu, hfl, hview, -⟩ := update_stored ntn dict name value hflag hw hst
  have hw1 := (update_view ntn dict name value 0 d1 hu).1
  have hfold : folded d1.flags name = folded dict.flags name := by
    rw [hfl, folded_narrow]
  have hstored : (view d1).get (update_key ntn dict.flags name)
      = some (update_value ntn dict.flags value) := by
    rw [hview]
    exact Store.get_insert_self _ _ _
  by_cases hn : (narrow ntn dict.flags).try1null = true
  · have hget : (view d1).get (folded d1.flags name ++ [0]) = some (value ++ [0]) := by
      rw [hview, hfold]
      simp only [update_key, update_value, hn, if_true]
      exact Store.get_insert_self _ _ _
    obtain ⟨d2, hl, -⟩ := lookup_found1 d1 name (value ++ [0]) (by rw [hfl]; exact hn) hget
    rw [SCOPY_append_zero value hvalue] at hl
    exact ⟨d1, d2, hu, hfl, hw1, hstored, hl⟩
  · have hn1 : (narrow ntn dict.flags).try1null = false := by simpa using hn
    have hn0 := narrow_try0null ntn dict.flags hflag hn1
    have hget : (view d1).get (folded d1.flags name) = some value := by
      rw [hview, hfold]
      simp only [update_key, update_value, hn1]
      exact Store.get_insert_self _ _ _
    obtain ⟨d2, hl, -⟩ := lookup_found0 d1 name value (by rw [hfl]; exact hn0)
      (Or.inl (by rw [hfl]; exact hn1)) hget
    rw [SCOPY_of_not_mem value hvalue] at hl
    exact ⟨d1, d2, hu, hfl, hw1, hstored, hl⟩

/-- With folding on, an entry written under one spelling of a name is stored
under the lower-cased name, is found under every spelling that agrees with it
after lower-casing, and under policy replace is overwritten through every
such spelling. -/
theorem fold_written_found_overwritten (ntn : Bool) (dict : DICT_MDB)
    (k k' value value' : Bytes)
    (hfold : dict.flags.fold_fix = true)
    (hflag : dict.flags.try1null = true ∨ dict.flags.try0null = true)
    (hw : writable dict)
    (hvalue : 0 ∉ value) (hvalue' : 0 ∉ value')
    (hk : lowercase k' = lowercase k)
    (hst : dict.flags.dup_replace = true ∨
      (view dict).get (update_key ntn dict.flags k) = none) :
    ∃ d1 d2, dict_mdb_update ntn dict k value = .ok (0, d1) ∧
      (update_key ntn dict.flags k = lowercase k ++ [0] ∨
        update_key ntn dict.flags k = lowercase k) ∧
      (view d1).get (update_key ntn dict.flags k) = some (update_value ntn dict.flags value) ∧
      dict_mdb_lookup d1 k' = .ok (some value, d2) ∧
      (dict.flags.dup_replace = true →
        ∃ d3 d4, dict_mdb_update ntn d1 k' value' = .ok (0, d3) ∧
          (view d3).get (update_key ntn dict.flags k)
            = some (update_value ntn dict.flags value') ∧
          dict_mdb_lookup d3 k = .ok (some value', d4)) := by
  obtain ⟨d1, d2, hu, hfl, hw1, hstored, hl⟩ :=
    update_stored_then_found ntn dict k value hflag hw hvalue hst
  have hfold1 : d1.flags.fold_fix = true := by
    rw [hfl, narrow_fold_fix, hfold]
  have hflag1 : d1.flags.try1null = true ∨ d1.flags.try0null = true := by
    rw [hfl]
    by_cases hn : (narrow ntn dict.flags).try1null = true
    · exact Or.inl hn
    · exact Or.inr (narrow_try0null ntn dict.flags hflag (by simpa using hn))
  have hkey : update_key ntn dict.flags k = lowercase k ++ [0] ∨
      update_key ntn dict.flags k = lowercase k := by
    simp only [update_key, folded, hfold, if_true]
    split_ifs
    · exact Or.inl rfl
    · exact Or.inr rfl
  refine ⟨d1, d2, hu, hkey, hstored, ?_, ?_⟩
  · rw [(fold_congr ntn d1 k' k value hfold1 hk).1]
    exact hl
  · intro hrep
    have hrep1 : d1.flags.dup_replace = true := by
      rw [hfl]
      unfold narrow
      split_ifs <;> exact hrep
    obtain ⟨d3, d4, hu3, hfl3, -, hstored3, hl3⟩ :=
      update_stored_then_found ntn d1 k' value' hflag1 hw1 hvalue' (Or.inl hrep1)
    have hfold3 : d3.flags.fold_fix = true := by
      rw [hfl3, narrow_fold_fix, hfold1]
    have hkeq : update_key ntn d1.flags k' = update_key ntn dict.flags k := by
      rw [update_key_congr ntn d1.flags dict.flags k' (by rw [hfl, narrow_idem])]
      simp only [update_key, folded, hfold, if_true, hk]
    have hveq : update_value ntn d1.flags value' = update_value ntn dict.flags value' :=
      update_value_congr ntn d1.flags dict.flags value' (by rw [hfl, narrow_idem])
    refine ⟨d3, d4, hu3, ?_, ?_⟩
    · rw [← hkeq, ← hveq]
      exact hstored3
    · rw [(fold_congr ntn d3 k k' value' hfold3 hk.symm).1]
      exact hl3

/-- C15 (defect): on a handle opened read-write with the fold flag and only the
try-without-terminator flag (no ambient transaction), update of Alice with 30
stores the entry under the lower-cased key alice; delete of ALICE then
returns 0 (found) and leaves that entry, and the lookup of alice still
returns 30. With only the try-with-terminator flag the same calls remove the
entry. -/
theorem delete_fold_try0null_private_leaves_entry :
    (dict_mdb_open [] O_RDWR { noFlags with try0null := true, fold_fix := true } >>= fun d =>
      dict_mdb_update false d [65, 108, 105, 99, 101] [51, 48] >>= fun u =>
      dict_mdb_delete u.2 [65, 76, 73, 67, 69] >>= fun r =>
      (dict_mdb_lookup r.2 [97, 108, 105, 99, 101]).map (fun l =>
        (u.2.env.store, r.1, r.2.env.store, l.1)))
      = .ok ([([97, 108, 105, 99, 101], [51, 48])], 0,
          [([97, 108, 105, 99, 101], [51, 48])], some [51, 48]) ∧
    (dict_mdb_open [] O_RDWR { noFlags with try1null := true, fold_fix := true } >>= fun d =>
      dict_mdb_update false d [65, 108, 105, 99, 101] [51, 48] >>= fun u =>
      dict_mdb_delete u.2 [65, 76, 73, 67, 69] >>= fun r =>
      (dict_mdb_lookup r.2 [97, 108, 105, 99, 101]).map (fun l =>
        (u.2.env.store, r.1, r.2.env.store, l.1)))
      = .ok ([([97, 108, 105, 99, 101, 0], [51, 48, 0])], 0, [], none) :=
  ⟨rfl, rfl⟩

end DictMdb
